import Mathlib

/-
Verification of the ephemeral hotplug-volume tracker and metrics emitter in
pkg/monitoring/metrics/virt-controller/vmi_metrics.go (package virt_controller).

Modelling conventions:
* Go strings are modelled as lists of characters (`GoStr`); `strings.Split`
  with the one-character separator "/" is modelled by `goSplit`.
* The tracker map `volumeTracker.volumes : map[string]EphemeralStatus` is
  modelled as an association list with map semantics (`VolumeMap`); Go map
  iteration order is unspecified, and every per-entry action of the source
  is order-independent, so the list order carries no meaning.
* `time.Now().Unix()` is passed in as an explicit `now : Int` parameter;
  the several calls inside one invocation are modelled as one instant.
* A Go panic (out-of-range index in `parseVolumeKey`) is modelled by
  returning `none`; functions that can hit it return `Option`.
* The `sync.RWMutex` is not modelled: each Go function body runs entirely
  under its lock, so an invocation is one atomic state transformation.
-/

namespace VirtController

/-- A Go string, modelled as its list of characters. -/
abbrev GoStr := List Char

/-- Models Go `strings.Split(s, sep)` for a one-character separator:
splitting the empty string yields `[""]`, and `n` separator occurrences
yield `n + 1` (possibly empty) fields. -/
def goSplit (sep : Char) : GoStr → List GoStr
  | [] => [[]]
  | c :: rest =>
    if c = sep then [] :: goSplit sep rest
    else
      match goSplit sep rest with
      | [] => [[c]]
      | g :: gs => (c :: g) :: gs

/-- `goSplit` never returns the empty list of fields. -/
theorem goSplit_ne_nil (sep : Char) (s : GoStr) : goSplit sep s ≠ [] := by
  cases s with
  | nil => simp [goSplit]
  | cons c rest =>
    simp only [goSplit]
    split
    · simp
    · split
      · simp
      · simp

/-- A string without the separator splits into the single field that is
the string itself. -/
theorem goSplit_of_not_mem (sep : Char) (s : GoStr) (h : sep ∉ s) :
    goSplit sep s = [s] := by
  induction s with
  | nil => rfl
  | cons c rest ih =>
    have hc : ¬(c = sep) := fun hc => h (by simp [hc])
    have hr : sep ∉ rest := fun hm => h (List.mem_cons_of_mem c hm)
    simp only [goSplit, if_neg hc, ih hr]

/-- Splitting a string that starts with the separator yields an empty
first field. -/
theorem goSplit_cons_sep (sep : Char) (ys : GoStr) :
    goSplit sep (sep :: ys) = [] :: goSplit sep ys := by
  simp [goSplit]

/-- Splitting `xs ++ sep :: ys` when `xs` is separator-free peels off `xs`
as the first field. -/
theorem goSplit_append (sep : Char) (xs ys : GoStr) (h : sep ∉ xs) :
    goSplit sep (xs ++ sep :: ys) = xs :: goSplit sep ys := by
  induction xs with
  | nil => simp [goSplit]
  | cons x xs ih =>
    have hx : ¬(x = sep) := fun hx => h (by simp [hx])
    have hxs : sep ∉ xs := fun hm => h (List.mem_cons_of_mem x hm)
    simp only [List.cons_append, goSplit, List.append_eq, if_neg hx]
    rw [ih hxs]

/-- Field count of a split of `xs ++ sep :: ys` is the sum of the field
counts of the two halves (no separator-freeness needed). -/
theorem goSplit_append_length (sep : Char) (xs ys : GoStr) :
    (goSplit sep (xs ++ sep :: ys)).length =
      (goSplit sep xs).length + (goSplit sep ys).length := by
  induction xs with
  | nil =>
    simp only [List.nil_append, goSplit_cons_sep, List.length_cons]
    simp [goSplit]
    omega
  | cons x xs ih =>
    by_cases hx : x = sep
    · subst hx
      rw [List.cons_append, goSplit_cons_sep, goSplit_cons_sep]
      simp only [List.length_cons]
      omega
    · simp only [List.cons_append, goSplit, List.append_eq, if_neg hx]
      obtain ⟨g, gs, hg⟩ : ∃ g gs, goSplit sep (xs ++ sep :: ys) = g :: gs := by
        cases hsp : goSplit sep (xs ++ sep :: ys) with
        | nil => exact absurd hsp (goSplit_ne_nil sep _)
        | cons g gs => exact ⟨g, gs, rfl⟩
      obtain ⟨g2, gs2, hg2⟩ : ∃ g2 gs2, goSplit sep xs = g2 :: gs2 := by
        cases hsp : goSplit sep xs with
        | nil => exact absurd hsp (goSplit_ne_nil sep _)
        | cons g2 gs2 => exact ⟨g2, gs2, rfl⟩
      rw [hg, hg2] at ih
      rw [hg, hg2]
      simp only [List.length_cons] at ih ⊢
      omega

/-- A split always has at least one field. -/
theorem goSplit_length_pos (sep : Char) (s : GoStr) :
    1 ≤ (goSplit sep s).length := by
  have h := goSplit_ne_nil sep s
  cases hsp : goSplit sep s with
  | nil => exact absurd hsp h
  | cons g gs => simp

/-- The composite tracker key `vmi.Namespace + "/" + vmi.Name + "/" + volume.Name`
built at the insertion site of `UpdateEphemeralVolumeCount`. -/
def mkKey (ns nm vn : GoStr) : GoStr := ns ++ ('/' :: (nm ++ ('/' :: vn)))

/-- `parseVolumeKey` from the source: splits on "/" and indexes fields
0, 1 and 2. Go panics when fewer than three fields exist (index out of
range), modelled by `none`; extra fields beyond the third are ignored. -/
def parseVolumeKey (key : GoStr) : Option (GoStr × GoStr × GoStr) :=
  match goSplit '/' key with
  | p0 :: p1 :: p2 :: _ => some (p0, p1, p2)
  | _ => none

/-- A component contains no "/" delimiter. -/
def noSlash (s : GoStr) : Prop := '/' ∉ s

instance (s : GoStr) : Decidable (noSlash s) := by
  unfold noSlash
  infer_instance

/-- Round trip: parsing a key assembled from delimiter-free components
recovers exactly the components. -/
theorem parseVolumeKey_mkKey (a b c : GoStr)
    (ha : noSlash a) (hb : noSlash b) (hc : noSlash c) :
    parseVolumeKey (mkKey a b c) = some (a, b, c) := by
  unfold parseVolumeKey mkKey
  rw [goSplit_append _ _ _ ha, goSplit_append _ _ _ hb, goSplit_of_not_mem _ _ hc]

/-- Every assembled key parses (it contains at least two separators), even
when its components themselves contain the delimiter. -/
theorem parseVolumeKey_mkKey_isSome (a b c : GoStr) :
    (parseVolumeKey (mkKey a b c)).isSome := by
  have h3 : 3 ≤ (goSplit '/' (mkKey a b c)).length := by
    unfold mkKey
    rw [goSplit_append_length, goSplit_append_length]
    have p1 := goSplit_length_pos '/' a
    have p2 := goSplit_length_pos '/' b
    have p3 := goSplit_length_pos '/' c
    omega
  unfold parseVolumeKey
  cases hsp : goSplit '/' (mkKey a b c) with
  | nil => rw [hsp] at h3; simp at h3
  | cons p0 t0 =>
    cases t0 with
    | nil => rw [hsp] at h3; simp at h3
    | cons p1 t1 =>
      cases t1 with
      | nil => rw [hsp] at h3; simp at h3
      | cons p2 t2 => rfl

/-- Assembled keys agree in their third component once the first two agree
(no delimiter-freeness needed: list append cancellation). -/
theorem mkKey_inj_right {ns nm a b : GoStr} (h : mkKey ns nm a = mkKey ns nm b) :
    a = b := by
  unfold mkKey at h
  have h1 := List.append_cancel_left h
  have h2 := List.cons.inj h1
  have h3 := List.append_cancel_left h2.2
  exact (List.cons.inj h3).2

/-- Assembled keys from delimiter-free components are equal only when all
three components are equal. -/
theorem mkKey_inj {a b c d e f : GoStr}
    (ha : noSlash a) (hb : noSlash b) (hc : noSlash c)
    (hd : noSlash d) (he : noSlash e) (hf : noSlash f)
    (h : mkKey a b c = mkKey d e f) : a = d ∧ b = e ∧ c = f := by
  have h1 := parseVolumeKey_mkKey a b c ha hb hc
  rw [h, parseVolumeKey_mkKey d e f hd he hf] at h1
  have h2 := Option.some.inj h1
  exact ⟨(Prod.mk.inj h2).1.symm, (Prod.mk.inj (Prod.mk.inj h2).2).1.symm,
    (Prod.mk.inj (Prod.mk.inj h2).2).2.symm⟩

/-- `v1.PersistentVolumeClaimVolumeSource`, restricted to the one field the
tracker reads. -/
structure PersistentVolumeClaimVolumeSource where
  Hotpluggable : Bool
  deriving DecidableEq

/-- `v1.DataVolumeSource`, restricted to the one field the tracker reads. -/
structure DataVolumeSource where
  Hotpluggable : Bool
  deriving DecidableEq

/-- `v1.Volume`: a name plus the two optional (nilable pointer) volume
sources inspected by `isHotplugVolume`. -/
structure Volume where
  Name : GoStr
  PersistentVolumeClaim : Option PersistentVolumeClaimVolumeSource
  DataVolume : Option DataVolumeSource
  deriving DecidableEq

/-- `isHotplugVolume` from the source: a claim-backed or data-volume-backed
source explicitly marked hotpluggable. -/
def isHotplugVolume (volume : Volume) : Bool :=
  (match volume.PersistentVolumeClaim with
   | some pvc => pvc.Hotpluggable
   | none => false) ||
  (match volume.DataVolume with
   | some dv => dv.Hotpluggable
   | none => false)

/-- The live instance spec: the volume list read by the tracker. -/
structure VMISpec where
  Volumes : List Volume
  deriving DecidableEq

/-- `v1.VirtualMachineInstance`, restricted to the fields the tracker
reads: `.Namespace`, `.Name` (object metadata) and `.Spec.Volumes`. -/
structure VirtualMachineInstance where
  Namespace : GoStr
  Name : GoStr
  Spec : VMISpec
  deriving DecidableEq

/-- The desired-state template layer: `vm.Spec.Template.Spec` has the same
shape as a live instance spec. -/
structure VMTemplate where
  Spec : VMISpec
  deriving DecidableEq

/-- `vm.Spec`, restricted to `.Template`. -/
structure VMSpec where
  Template : VMTemplate
  deriving DecidableEq

/-- `v1.VirtualMachine`, restricted to `.Spec.Template.Spec.Volumes`. -/
structure VirtualMachine where
  Spec : VMSpec
  deriving DecidableEq

/-- `EphemeralStatus` from the source. -/
structure EphemeralStatus where
  timestamp : Int
  confirmed : Bool
  deriving DecidableEq

/-- `volumeTracker.volumes : map[string]EphemeralStatus`, modelled as an
association list with map semantics. -/
abbrev VolumeMap := List (GoStr × EphemeralStatus)

/-- Go map read `m[k]` (with its `exists` flag folded into `Option`). -/
def lookupKey (m : VolumeMap) (k : GoStr) : Option EphemeralStatus :=
  match m with
  | [] => none
  | e :: rest => if e.1 = k then some e.2 else lookupKey rest k

/-- Go map delete `delete(m, k)`. -/
def deleteKey (k : GoStr) (m : VolumeMap) : VolumeMap :=
  match m with
  | [] => []
  | e :: rest => if e.1 = k then deleteKey k rest else e :: deleteKey k rest

/-- Go map write `m[k] = st` (overwrite). -/
def insertKey (k : GoStr) (st : EphemeralStatus) (m : VolumeMap) : VolumeMap :=
  (k, st) :: deleteKey k m

/-- The key set of the tracker map. -/
def mapKeys (m : VolumeMap) : List GoStr := m.map (fun e => e.1)

/-- The names of the desired template's volumes: the key set of
`vmVolumeMap` built from `vm.Spec.Template.Spec.Volumes` (only membership
in that Go map is ever read). -/
def templateNames (vm : VirtualMachine) : List GoStr :=
  vm.Spec.Template.Spec.Volumes.map (fun v => v.Name)

/-- The names of the hotplug-eligible volumes of a volume list. -/
def hotplugNamesOf (vols : List Volume) : List GoStr :=
  (vols.filter isHotplugVolume).map (fun v => v.Name)

/-- The names of the live instance's hotplug-eligible volumes: the key set
of `vmiVolumeMap`. In the source the map is filled while the first loop
runs and read only after it completes, so it equals this full set. -/
def hotplugNames (vmi : VirtualMachineInstance) : List GoStr :=
  hotplugNamesOf vmi.Spec.Volumes

/-- One iteration of the first loop of `UpdateEphemeralVolumeCount`
(lines 95-125): skip non-hotplug volumes; for a name absent from the vm
spec create a record only on first detection; for a name present in both
specs delete a record first observed within the last 60 seconds. -/
def phase1Step (vmVolumeNames : List GoStr) (ns nm : GoStr) (now : Int)
    (m : VolumeMap) (volume : Volume) : VolumeMap :=
  if isHotplugVolume volume = false then m
  else if volume.Name ∉ vmVolumeNames then
    match lookupKey m (mkKey ns nm volume.Name) with
    | some _ => m
    | none =>
      insertKey (mkKey ns nm volume.Name) { timestamp := now, confirmed := false } m
  else
    match lookupKey m (mkKey ns nm volume.Name) with
    | none => m
    | some volumeStatus =>
      if now - volumeStatus.timestamp ≤ 60 then
        deleteKey (mkKey ns nm volume.Name) m
      else m

/-- The whole first loop, folded over `vmi.Spec.Volumes` in slice order. -/
def phase1 (vmVolumeNames : List GoStr) (ns nm : GoStr) (now : Int)
    (vols : List Volume) (m : VolumeMap) : VolumeMap :=
  vols.foldl (phase1Step vmVolumeNames ns nm now) m

/-- The second loop of `UpdateEphemeralVolumeCount` (lines 129-148): every
record's key is parsed (a Go panic on a malformed key is `none`); records
whose volume name left the live hotplug set are deleted, the rest are
confirmed once tracked for more than 2 seconds. Each entry is handled
independently, so Go's unspecified map iteration order is immaterial. -/
def sweepConfirm (vmiVolumeNames : List GoStr) (now : Int) :
    VolumeMap → Option VolumeMap
  | [] => some []
  | (key, volumeStatus) :: rest =>
    match parseVolumeKey key, sweepConfirm vmiVolumeNames now rest with
    | some (_, _, volumeName), some tail =>
      if volumeName ∉ vmiVolumeNames then some tail
      else if now - volumeStatus.timestamp > 2 then
        some ((key, { volumeStatus with confirmed := true }) :: tail)
      else some ((key, volumeStatus) :: tail)
    | _, _ => none

/-- `UpdateEphemeralVolumeCount` from the source, as a state transformer of
the tracker map. A `nil` instance or machine is a quiet no-op; the result
is `none` exactly when the Go code would panic in `parseVolumeKey`. -/
def UpdateEphemeralVolumeCount (vmi : Option VirtualMachineInstance)
    (vm : Option VirtualMachine) (now : Int) (m : VolumeMap) :
    Option VolumeMap :=
  match vmi, vm with
  | some vmi, some vm =>
    let vmVolumeNames := templateNames vm
    let vmiVolumeNames := hotplugNames vmi
    sweepConfirm vmiVolumeNames now
      (phase1 vmVolumeNames vmi.Namespace vmi.Name now vmi.Spec.Volumes m)
  | _, _ => some m

/-- One emitted sample of the collection callback: the label values
`[namespace, vmi_name, volume_name]` and the gauge value (the source's
`float64(1)`, an exact small integer). -/
structure CollectorResult where
  labels : List GoStr
  value : Int
  deriving DecidableEq

/-- `EphemeralVolumeMetricsCallback` from the source: one sample of value 1
per confirmed record; unconfirmed records are skipped before their key is
parsed; `none` models the Go panic on a malformed confirmed key. -/
def EphemeralVolumeMetricsCallback : VolumeMap → Option (List CollectorResult)
  | [] => some []
  | (key, volumeStatus) :: rest =>
    match EphemeralVolumeMetricsCallback rest with
    | none => none
    | some tail =>
      if volumeStatus.confirmed = false then some tail
      else
        match parseVolumeKey key with
        | none => none
        | some (ns, vmiName, volumeName) =>
          some ({ labels := [ns, vmiName, volumeName], value := 1 } :: tail)

theorem lookupKey_cons (e : GoStr × EphemeralStatus) (rest : VolumeMap) (k : GoStr) :
    lookupKey (e :: rest) k = if e.1 = k then some e.2 else lookupKey rest k := rfl

theorem lookupKey_insert_self (k : GoStr) (st : EphemeralStatus) (m : VolumeMap) :
    lookupKey (insertKey k st m) k = some st := by
  simp [insertKey, lookupKey]

theorem lookupKey_delete_ne {k k0 : GoStr} (m : VolumeMap) (h : k0 ≠ k) :
    lookupKey (deleteKey k m) k0 = lookupKey m k0 := by
  induction m with
  | nil => rfl
  | cons e rest ih =>
    unfold deleteKey
    by_cases he : e.1 = k
    · have hne : ¬(e.1 = k0) := fun hc => h (hc.symm.trans he)
      rw [if_pos he, ih, lookupKey_cons, if_neg hne]
    · rw [if_neg he, lookupKey_cons, lookupKey_cons]
      by_cases he0 : e.1 = k0
      · rw [if_pos he0, if_pos he0]
      · rw [if_neg he0, if_neg he0, ih]

theorem lookupKey_delete_self (k : GoStr) (m : VolumeMap) :
    lookupKey (deleteKey k m) k = none := by
  induction m with
  | nil => rfl
  | cons e rest ih =>
    unfold deleteKey
    by_cases he : e.1 = k
    · rw [if_pos he]
      exact ih
    · rw [if_neg he, lookupKey_cons, if_neg he]
      exact ih

theorem mem_deleteKey {e : GoStr × EphemeralStatus} {k : GoStr} (m : VolumeMap)
    (h : e ∈ deleteKey k m) : e ∈ m := by
  induction m with
  | nil => exact absurd h (by simp [deleteKey])
  | cons e0 rest ih =>
    unfold deleteKey at h
    by_cases he : e0.1 = k
    · rw [if_pos he] at h
      exact List.mem_cons_of_mem e0 (ih h)
    · rw [if_neg he] at h
      rcases List.mem_cons.mp h with hc | hc
      · exact hc ▸ List.mem_cons_self e0 rest
      · exact List.mem_cons_of_mem e0 (ih hc)

theorem lookupKey_insert_ne {k k0 : GoStr} (st : EphemeralStatus) (m : VolumeMap)
    (h : k0 ≠ k) : lookupKey (insertKey k st m) k0 = lookupKey m k0 := by
  simp only [insertKey, lookupKey]
  rw [if_neg (fun hc => h hc.symm), lookupKey_delete_ne m h]

theorem mem_mapKeys_iff (m : VolumeMap) (k : GoStr) :
    k ∈ mapKeys m ↔ (lookupKey m k).isSome := by
  induction m with
  | nil =>
    show k ∈ ([] : List GoStr) ↔ (Option.none : Option EphemeralStatus).isSome
    simp
  | cons e rest ih =>
    rw [lookupKey_cons]
    show k ∈ e.1 :: mapKeys rest ↔ _
    rw [List.mem_cons]
    by_cases he : e.1 = k
    · rw [if_pos he]
      constructor
      · intro _; rfl
      · intro _; exact Or.inl he.symm
    · rw [if_neg he]
      constructor
      · intro h0
        rcases h0 with h0 | h0
        · exact absurd h0.symm he
        · exact ih.mp h0
      · intro h0
        exact Or.inr (ih.mpr h0)

theorem mem_hotplugNamesOf (vols : List Volume) (vn : GoStr) :
    vn ∈ hotplugNamesOf vols ↔
      ∃ v, v ∈ vols ∧ isHotplugVolume v = true ∧ v.Name = vn := by
  simp only [hotplugNamesOf, List.mem_map, List.mem_filter]
  constructor
  · rintro ⟨v, ⟨hv, hh⟩, hn⟩
    exact ⟨v, hv, hh, hn⟩
  · rintro ⟨v, hv, hh, hn⟩
    exact ⟨v, ⟨hv, hh⟩, hn⟩

theorem phase1_cons (vmNames : List GoStr) (ns nm : GoStr) (now : Int)
    (v : Volume) (vols : List Volume) (m : VolumeMap) :
    phase1 vmNames ns nm now (v :: vols) m =
      phase1 vmNames ns nm now vols (phase1Step vmNames ns nm now m v) := rfl

/-- A loop iteration whose tracker key is not `k` leaves the lookup of `k`
unchanged. -/
theorem phase1Step_lookup_other (vmNames : List GoStr) (ns nm : GoStr) (now : Int)
    (m : VolumeMap) (v : Volume) (k : GoStr)
    (h : isHotplugVolume v = true → mkKey ns nm v.Name ≠ k) :
    lookupKey (phase1Step vmNames ns nm now m v) k = lookupKey m k := by
  unfold phase1Step
  split
  · rfl
  · rename_i hhot
    have hne : mkKey ns nm v.Name ≠ k :=
      h (by revert hhot; cases isHotplugVolume v <;> simp)
    split
    · split
      · rfl
      · exact lookupKey_insert_ne _ m (fun hc => hne hc.symm)
    · split
      · rfl
      · split
        · exact lookupKey_delete_ne m (fun hc => hne hc.symm)
        · rfl

/-- Loop iteration, both-specs branch, record present: deleted inside the
grace window, kept unchanged outside it. -/
theorem phase1Step_lookup_declared_some (vmNames : List GoStr) (ns nm : GoStr)
    (now : Int) (m : VolumeMap) (v : Volume) (st : EphemeralStatus)
    (hhot : isHotplugVolume v = true) (hT : v.Name ∈ vmNames)
    (hl : lookupKey m (mkKey ns nm v.Name) = some st) :
    lookupKey (phase1Step vmNames ns nm now m v) (mkKey ns nm v.Name) =
      if now - st.timestamp ≤ 60 then none else some st := by
  unfold phase1Step
  rw [if_neg (by simp [hhot]), if_neg (show ¬(v.Name ∉ vmNames) from fun hc => hc hT)]
  simp only [hl]
  by_cases h60 : now - st.timestamp ≤ 60
  · rw [if_pos h60, if_pos h60]
    exact lookupKey_delete_self _ m
  · rw [if_neg h60, if_neg h60]
    exact hl

/-- Loop iteration, both-specs branch, no record: nothing happens. -/
theorem phase1Step_lookup_declared_none (vmNames : List GoStr) (ns nm : GoStr)
    (now : Int) (m : VolumeMap) (v : Volume)
    (hhot : isHotplugVolume v = true) (hT : v.Name ∈ vmNames)
    (hl : lookupKey m (mkKey ns nm v.Name) = none) :
    lookupKey (phase1Step vmNames ns nm now m v) (mkKey ns nm v.Name) = none := by
  unfold phase1Step
  rw [if_neg (by simp [hhot]), if_neg (show ¬(v.Name ∉ vmNames) from fun hc => hc hT)]
  simp only [hl]

/-- Loop iteration, hotplug-only branch, record present: left untouched
(the timer is not reset). -/
theorem phase1Step_lookup_undeclared_some (vmNames : List GoStr) (ns nm : GoStr)
    (now : Int) (m : VolumeMap) (v : Volume) (st : EphemeralStatus)
    (hhot : isHotplugVolume v = true) (hT : v.Name ∉ vmNames)
    (hl : lookupKey m (mkKey ns nm v.Name) = some st) :
    lookupKey (phase1Step vmNames ns nm now m v) (mkKey ns nm v.Name) = some st := by
  unfold phase1Step
  rw [if_neg (by simp [hhot]), if_pos hT]
  simp only [hl]

/-- Loop iteration, hotplug-only branch, no record: first detection creates
an unconfirmed record stamped `now`. -/
theorem phase1Step_lookup_undeclared_none (vmNames : List GoStr) (ns nm : GoStr)
    (now : Int) (m : VolumeMap) (v : Volume)
    (hhot : isHotplugVolume v = true) (hT : v.Name ∉ vmNames)
    (hl : lookupKey m (mkKey ns nm v.Name) = none) :
    lookupKey (phase1Step vmNames ns nm now m v) (mkKey ns nm v.Name) =
      some { timestamp := now, confirmed := false } := by
  unfold phase1Step
  rw [if_neg (by simp [hhot]), if_pos hT]
  simp only [hl]
  exact lookupKey_insert_self _ _ m

/-- Through the whole first loop, an existing record survives untouched
provided it is outside the grace window whenever its name is declared. -/
theorem phase1_preserve_some (vmNames : List GoStr) (ns nm vn : GoStr) (now : Int) :
    ∀ (vols : List Volume) (m : VolumeMap) (st : EphemeralStatus),
    lookupKey m (mkKey ns nm vn) = some st →
    (vn ∈ vmNames → ¬(now - st.timestamp ≤ 60)) →
    lookupKey (phase1 vmNames ns nm now vols m) (mkKey ns nm vn) = some st := by
  intro vols
  induction vols with
  | nil => intro m st h _; exact h
  | cons v vols ih =>
    intro m st h hgr
    rw [phase1_cons]
    refine ih _ st ?_ hgr
    by_cases hm : isHotplugVolume v = true ∧ v.Name = vn
    · rw [← hm.2] at h ⊢
      by_cases hT : v.Name ∈ vmNames
      · rw [phase1Step_lookup_declared_some vmNames ns nm now m v st hm.1 hT h]
        rw [if_neg (hgr (hm.2 ▸ hT))]
      · exact phase1Step_lookup_undeclared_some vmNames ns nm now m v st hm.1 hT h
    · rw [phase1Step_lookup_other vmNames ns nm now m v _ ?_, h]
      intro hhot heq
      exact hm ⟨hhot, mkKey_inj_right heq⟩

/-- Through the whole first loop, a missing record whose name is declared
in the vm spec stays missing (the creation branch is unreachable). -/
theorem phase1_preserve_none_declared (vmNames : List GoStr) (ns nm vn : GoStr)
    (now : Int) :
    ∀ (vols : List Volume) (m : VolumeMap),
    vn ∈ vmNames →
    lookupKey m (mkKey ns nm vn) = none →
    lookupKey (phase1 vmNames ns nm now vols m) (mkKey ns nm vn) = none := by
  intro vols
  induction vols with
  | nil => intro m _ h; exact h
  | cons v vols ih =>
    intro m hT h
    rw [phase1_cons]
    refine ih _ hT ?_
    by_cases hm : isHotplugVolume v = true ∧ v.Name = vn
    · rw [← hm.2] at h ⊢
      exact phase1Step_lookup_declared_none vmNames ns nm now m v hm.1
        (by rw [hm.2]; exact hT) h
    · rw [phase1Step_lookup_other vmNames ns nm now m v _ ?_, h]
      intro hhot heq
      exact hm ⟨hhot, mkKey_inj_right heq⟩

/-- First detection: a hotplug-eligible live volume whose name is absent
from the vm spec and has no record gets one with `timestamp = now`,
`confirmed = false`. -/
theorem phase1_create (vmNames : List GoStr) (ns nm vn : GoStr) (now : Int) :
    ∀ (vols : List Volume) (m : VolumeMap),
    vn ∉ vmNames →
    vn ∈ hotplugNamesOf vols →
    lookupKey m (mkKey ns nm vn) = none →
    lookupKey (phase1 vmNames ns nm now vols m) (mkKey ns nm vn) =
      some { timestamp := now, confirmed := false } := by
  intro vols
  induction vols with
  | nil => intro m _ hH _; exact absurd hH (by simp [hotplugNamesOf])
  | cons v vols ih =>
    intro m hT hH h
    rw [phase1_cons]
    by_cases hm : isHotplugVolume v = true ∧ v.Name = vn
    · have hstep : lookupKey (phase1Step vmNames ns nm now m v) (mkKey ns nm vn) =
          some { timestamp := now, confirmed := false } := by
        rw [← hm.2] at h ⊢
        exact phase1Step_lookup_undeclared_none vmNames ns nm now m v hm.1
          (by rw [hm.2]; exact hT) h
      exact phase1_preserve_some vmNames ns nm vn now vols _ _ hstep
        (fun hc => absurd hc hT)
    · have hstep : lookupKey (phase1Step vmNames ns nm now m v) (mkKey ns nm vn) =
          none := by
        rw [phase1Step_lookup_other vmNames ns nm now m v _ ?_, h]
        intro hhot heq
        exact hm ⟨hhot, mkKey_inj_right heq⟩
      have hH2 : vn ∈ hotplugNamesOf vols := by
        rcases (mem_hotplugNamesOf (v :: vols) vn).mp hH with ⟨w, hw, hwh, hwn⟩
        rcases List.mem_cons.mp hw with hw0 | hw1
        · exact absurd ⟨hw0 ▸ hwh, hw0 ▸ hwn⟩ hm
        · exact (mem_hotplugNamesOf vols vn).mpr ⟨w, hw1, hwh, hwn⟩
      exact ih _ hT hH2 hstep

/-- Grace-window reclassification: a record whose name is declared in the
vm spec and still within 60 seconds of first observation is deleted by the
first loop and stays deleted. -/
theorem phase1_grace_delete (vmNames : List GoStr) (ns nm vn : GoStr) (now : Int) :
    ∀ (vols : List Volume) (m : VolumeMap) (st : EphemeralStatus),
    vn ∈ vmNames →
    vn ∈ hotplugNamesOf vols →
    lookupKey m (mkKey ns nm vn) = some st →
    now - st.timestamp ≤ 60 →
    lookupKey (phase1 vmNames ns nm now vols m) (mkKey ns nm vn) = none := by
  intro vols
  induction vols with
  | nil => intro m st _ hH _ _; exact absurd hH (by simp [hotplugNamesOf])
  | cons v vols ih =>
    intro m st hT hH h h60
    rw [phase1_cons]
    by_cases hm : isHotplugVolume v = true ∧ v.Name = vn
    · have hstep : lookupKey (phase1Step vmNames ns nm now m v) (mkKey ns nm vn) =
          none := by
        rw [← hm.2] at h ⊢
        rw [phase1Step_lookup_declared_some vmNames ns nm now m v st hm.1
          (by rw [hm.2]; exact hT) h]
        rw [if_pos h60]
      exact phase1_preserve_none_declared vmNames ns nm vn now vols _ hT hstep
    · have hstep : lookupKey (phase1Step vmNames ns nm now m v) (mkKey ns nm vn) =
          some st := by
        rw [phase1Step_lookup_other vmNames ns nm now m v _ ?_, h]
        intro hhot heq
        exact hm ⟨hhot, mkKey_inj_right heq⟩
      have hH2 : vn ∈ hotplugNamesOf vols := by
        rcases (mem_hotplugNamesOf (v :: vols) vn).mp hH with ⟨w, hw, hwh, hwn⟩
        rcases List.mem_cons.mp hw with hw0 | hw1
        · exact absurd ⟨hw0 ▸ hwh, hw0 ▸ hwn⟩ hm
        · exact (mem_hotplugNamesOf vols vn).mpr ⟨w, hw1, hwh, hwn⟩
      exact ih _ st hT hH2 hstep h60

/-- A key whose volume name is not hotplug-eligible in this call is not
touched by the first loop. -/
theorem phase1_untouched (vmNames : List GoStr) (ns nm vn : GoStr) (now : Int) :
    ∀ (vols : List Volume) (m : VolumeMap),
    vn ∉ hotplugNamesOf vols →
    lookupKey (phase1 vmNames ns nm now vols m) (mkKey ns nm vn) =
      lookupKey m (mkKey ns nm vn) := by
  intro vols
  induction vols with
  | nil => intro m _; rfl
  | cons v vols ih =>
    intro m hH
    rw [phase1_cons]
    have hH2 : vn ∉ hotplugNamesOf vols := by
      intro hc
      rcases (mem_hotplugNamesOf vols vn).mp hc with ⟨w, hw, hwh, hwn⟩
      exact hH ((mem_hotplugNamesOf (v :: vols) vn).mpr
        ⟨w, List.mem_cons_of_mem v hw, hwh, hwn⟩)
    rw [ih _ hH2]
    refine phase1Step_lookup_other vmNames ns nm now m v _ ?_
    intro hhot heq
    exact hH ((mem_hotplugNamesOf (v :: vols) vn).mpr
      ⟨v, List.mem_cons_self v vols, hhot, mkKey_inj_right heq⟩)

/-- A key never produced as a tracker key of this call is not touched by
the first loop (covers keys of other instances). -/
theorem phase1_other (vmNames : List GoStr) (ns nm : GoStr) (now : Int) :
    ∀ (vols : List Volume) (m : VolumeMap) (k : GoStr),
    (∀ v ∈ vols, isHotplugVolume v = true → mkKey ns nm v.Name ≠ k) →
    lookupKey (phase1 vmNames ns nm now vols m) k = lookupKey m k := by
  intro vols
  induction vols with
  | nil => intro m k _; rfl
  | cons v vols ih =>
    intro m k h
    rw [phase1_cons, ih _ k (fun w hw => h w (List.mem_cons_of_mem v hw))]
    exact phase1Step_lookup_other vmNames ns nm now m v k
      (h v (List.mem_cons_self v vols))

/-- The first loop either leaves a record exactly as it was or creates a
fresh unconfirmed one where none existed: it never rewrites an existing
record in place. -/
theorem phase1_lookup_cases (vmNames : List GoStr) (ns nm : GoStr) (now : Int) :
    ∀ (vols : List Volume) (m : VolumeMap) (k : GoStr) (st : EphemeralStatus),
    lookupKey (phase1 vmNames ns nm now vols m) k = some st →
    lookupKey m k = some st ∨
      (st = { timestamp := now, confirmed := false } ∧ lookupKey m k = none) := by
  intro vols
  induction vols with
  | nil => intro m k st h; exact Or.inl h
  | cons v vols ih =>
    intro m k st h
    rw [phase1_cons] at h
    by_cases hm : isHotplugVolume v = true ∧ mkKey ns nm v.Name = k
    · rw [← hm.2] at h ⊢
      by_cases hT : v.Name ∈ vmNames
      · cases hl : lookupKey m (mkKey ns nm v.Name) with
        | none =>
          have hstep : lookupKey (phase1Step vmNames ns nm now m v)
              (mkKey ns nm v.Name) = none := by
            exact phase1Step_lookup_declared_none vmNames ns nm now m v hm.1 hT hl
          rw [phase1_preserve_none_declared vmNames ns nm v.Name now vols _ hT hstep]
            at h
          exact absurd h (by simp)
        | some st0 =>
          by_cases h60 : now - st0.timestamp ≤ 60
          · have hstep : lookupKey (phase1Step vmNames ns nm now m v)
                (mkKey ns nm v.Name) = none := by
              rw [phase1Step_lookup_declared_some vmNames ns nm now m v st0 hm.1
                hT hl]
              exact if_pos h60
            rw [phase1_preserve_none_declared vmNames ns nm v.Name now vols _ hT
              hstep] at h
            exact absurd h (by simp)
          · have hstep : lookupKey (phase1Step vmNames ns nm now m v)
                (mkKey ns nm v.Name) = some st0 := by
              rw [phase1Step_lookup_declared_some vmNames ns nm now m v st0 hm.1
                hT hl]
              exact if_neg h60
            rcases ih _ _ st h with hc | hc
            · rw [hstep] at hc
              exact Or.inl (hl ▸ hc)
            · rw [hstep] at hc
              exact absurd hc.2 (by simp)
      · cases hl : lookupKey m (mkKey ns nm v.Name) with
        | none =>
          have hstep : lookupKey (phase1Step vmNames ns nm now m v)
              (mkKey ns nm v.Name) = some { timestamp := now, confirmed := false } := by
            exact phase1Step_lookup_undeclared_none vmNames ns nm now m v hm.1 hT hl
          rcases ih _ _ st h with hc | hc
          · rw [hstep] at hc
            exact Or.inr ⟨(Option.some.inj hc).symm, rfl⟩
          · rw [hstep] at hc
            exact absurd hc.2 (by simp)
        | some st0 =>
          have hstep : lookupKey (phase1Step vmNames ns nm now m v)
              (mkKey ns nm v.Name) = some st0 := by
            exact phase1Step_lookup_undeclared_some vmNames ns nm now m v st0 hm.1
              hT hl
          rcases ih _ _ st h with hc | hc
          · rw [hstep] at hc
            exact Or.inl (hl ▸ hc)
          · rw [hstep] at hc
            exact absurd hc.2 (by simp)
    · have hstep : lookupKey (phase1Step vmNames ns nm now m v) k = lookupKey m k := by
        refine phase1Step_lookup_other vmNames ns nm now m v k ?_
        intro hhot heq
        exact hm ⟨hhot, heq⟩
      rcases ih _ _ st h with hc | hc
      · exact Or.inl (hstep ▸ hc)
      · exact Or.inr ⟨hc.1, hstep ▸ hc.2⟩

/-- Every entry after the first loop was either already present or is a
fresh unconfirmed record keyed by a tracker key of this call. -/
theorem phase1_mem (vmNames : List GoStr) (ns nm : GoStr) (now : Int) :
    ∀ (vols : List Volume) (m : VolumeMap) (e : GoStr × EphemeralStatus),
    e ∈ phase1 vmNames ns nm now vols m →
    e ∈ m ∨ ∃ v ∈ vols, e.1 = mkKey ns nm v.Name := by
  intro vols
  induction vols with
  | nil => intro m e h; exact Or.inl h
  | cons v vols ih =>
    intro m e h
    rw [phase1_cons] at h
    rcases ih _ e h with hc | ⟨w, hw, hk⟩
    · unfold phase1Step at hc
      split at hc
      · exact Or.inl hc
      · split at hc
        · split at hc
          · exact Or.inl hc
          · rcases List.mem_cons.mp hc with hc0 | hc0
            · exact Or.inr ⟨v, List.mem_cons_self v vols, by rw [hc0]⟩
            · exact Or.inl (mem_deleteKey m hc0)
        · split at hc
          · exact Or.inl hc
          · split at hc
            · exact Or.inl (mem_deleteKey m hc)
            · exact Or.inl hc
    · exact Or.inr ⟨w, List.mem_cons_of_mem v hw, hk⟩

/-- The sweep succeeds (no panic) when every stored key parses. -/
theorem sweepConfirm_isSome (H : List GoStr) (now : Int) :
    ∀ m : VolumeMap, (∀ e ∈ m, (parseVolumeKey e.1).isSome) →
    (sweepConfirm H now m).isSome := by
  intro m
  induction m with
  | nil => intro _; rfl
  | cons e rest ih =>
    intro h
    obtain ⟨key, st⟩ := e
    have hkey : (parseVolumeKey key).isSome := h (key, st) (List.mem_cons_self _ _)
    have hrest : ∀ e ∈ rest, (parseVolumeKey e.1).isSome :=
      fun e he => h e (List.mem_cons_of_mem _ he)
    obtain ⟨trip, hp⟩ := Option.isSome_iff_exists.mp hkey
    obtain ⟨q1, q2, q3⟩ := trip
    obtain ⟨tail, hs⟩ := Option.isSome_iff_exists.mp (ih hrest)
    simp only [sweepConfirm, hp, hs]
    by_cases hq : q3 ∉ H
    · rw [if_pos hq]; rfl
    · rw [if_neg hq]
      by_cases h2 : now - st.timestamp > 2
      · rw [if_pos h2]; rfl
      · rw [if_neg h2]; rfl

/-- Every entry surviving the sweep has a key that was already present. -/
theorem sweepConfirm_mem (H : List GoStr) (now : Int) :
    ∀ (m m2 : VolumeMap), sweepConfirm H now m = some m2 →
    ∀ e2 ∈ m2, ∃ st0, (e2.1, st0) ∈ m := by
  intro m
  induction m with
  | nil =>
    intro m2 hs e2 he2
    simp only [sweepConfirm] at hs
    rw [← Option.some.inj hs] at he2
    exact absurd he2 (by simp)
  | cons e rest ih =>
    obtain ⟨key, est⟩ := e
    intro m2 hs e2 he2
    simp only [sweepConfirm] at hs
    cases hq : parseVolumeKey key with
    | none => rw [hq] at hs; exact absurd hs (by cases sweepConfirm H now rest <;> simp)
    | some trip =>
      obtain ⟨q1, q2, q3⟩ := trip
      rw [hq] at hs
      cases hs0 : sweepConfirm H now rest with
      | none => rw [hs0] at hs; exact absurd hs (by simp)
      | some tail =>
        rw [hs0] at hs
        simp only [] at hs
        have step : ∀ x ∈ tail, ∃ st0, (x.1, st0) ∈ (key, est) :: rest := by
          intro x hx
          obtain ⟨st0, hst0⟩ := ih tail hs0 x hx
          exact ⟨st0, List.mem_cons_of_mem _ hst0⟩
        by_cases hqH : q3 ∉ H
        · rw [if_pos hqH] at hs
          rw [← Option.some.inj hs] at he2
          exact step e2 he2
        · rw [if_neg hqH] at hs
          by_cases h2 : now - est.timestamp > 2
          · rw [if_pos h2] at hs
            rw [← Option.some.inj hs] at he2
            rcases List.mem_cons.mp he2 with hc | hc
            · exact ⟨est, by rw [hc]; exact List.mem_cons_self _ _⟩
            · exact step e2 hc
          · rw [if_neg h2] at hs
            rw [← Option.some.inj hs] at he2
            rcases List.mem_cons.mp he2 with hc | hc
            · exact ⟨est, by rw [hc]; exact List.mem_cons_self _ _⟩
            · exact step e2 hc

/-- Forward lookup characterisation of the sweep: a record is dropped when
its parsed volume name left the live hotplug set, confirmed once tracked
for more than 2 seconds, and otherwise kept as is. -/
theorem sweepConfirm_lookup (H : List GoStr) (now : Int) :
    ∀ (m m2 : VolumeMap), sweepConfirm H now m = some m2 →
    ∀ (k p1 p2 p3 : GoStr), parseVolumeKey k = some (p1, p2, p3) →
    (lookupKey m k = none → lookupKey m2 k = none) ∧
    (∀ st, lookupKey m k = some st →
      lookupKey m2 k =
        if p3 ∈ H then
          some (if now - st.timestamp > 2 then
            { timestamp := st.timestamp, confirmed := true } else st)
        else none) := by
  intro m
  induction m with
  | nil =>
    intro m2 hs k p1 p2 p3 hp
    simp only [sweepConfirm] at hs
    rw [← Option.some.inj hs]
    constructor
    · intro _; rfl
    · intro st hst; exact absurd hst (by simp [lookupKey])
  | cons e rest ih =>
    obtain ⟨key, est⟩ := e
    intro m2 hs k p1 p2 p3 hp
    simp only [sweepConfirm] at hs
    cases hq : parseVolumeKey key with
    | none => rw [hq] at hs; exact absurd hs (by cases sweepConfirm H now rest <;> simp)
    | some trip =>
      obtain ⟨q1, q2, q3⟩ := trip
      rw [hq] at hs
      cases hs0 : sweepConfirm H now rest with
      | none => rw [hs0] at hs; exact absurd hs (by simp)
      | some tail =>
        rw [hs0] at hs
        simp only [] at hs
        obtain ⟨hnone, hsome⟩ := ih tail hs0 k p1 p2 p3 hp
        have hq3 : key = k → q3 = p3 := by
          intro he
          rw [he] at hq
          rw [hq] at hp
          have h1 := Option.some.inj hp
          exact (Prod.mk.inj (Prod.mk.inj h1).2).2
        by_cases hqH : q3 ∉ H
        · rw [if_pos hqH] at hs
          rw [← Option.some.inj hs]
          constructor
          · intro hl
            rw [lookupKey_cons] at hl
            by_cases he : key = k
            · rw [if_pos he] at hl; exact absurd hl (by simp)
            · rw [if_neg he] at hl
              exact hnone hl
          · intro st hst
            rw [lookupKey_cons] at hst
            by_cases he : key = k
            · rw [if_neg (show ¬(p3 ∈ H) from (hq3 he) ▸ hqH)]
              cases hr : lookupKey rest k with
              | none => exact hnone hr
              | some st0 =>
                rw [hsome st0 hr, if_neg (show ¬(p3 ∈ H) from (hq3 he) ▸ hqH)]
            · rw [if_neg he] at hst
              rw [hsome st hst]
        · have hqH2 : q3 ∈ H := Decidable.not_not.mp hqH
          rw [if_neg hqH] at hs
          by_cases h2 : now - est.timestamp > 2
          · rw [if_pos h2] at hs
            rw [← Option.some.inj hs]
            constructor
            · intro hl
              rw [lookupKey_cons] at hl
              by_cases he : key = k
              · rw [if_pos he] at hl; exact absurd hl (by simp)
              · rw [if_neg he] at hl
                rw [lookupKey_cons, if_neg he]
                exact hnone hl
            · intro st hst
              rw [lookupKey_cons] at hst
              rw [lookupKey_cons]
              by_cases he : key = k
              · rw [if_pos he] at hst
                have hest : est = st := Option.some.inj hst
                rw [if_pos he, if_pos ((hq3 he) ▸ hqH2)]
                rw [← hest]
                rw [if_pos h2]
              · rw [if_neg he] at hst
                rw [if_neg he]
                exact hsome st hst
          · rw [if_neg h2] at hs
            rw [← Option.some.inj hs]
            constructor
            · intro hl
              rw [lookupKey_cons] at hl
              by_cases he : key = k
              · rw [if_pos he] at hl; exact absurd hl (by simp)
              · rw [if_neg he] at hl
                rw [lookupKey_cons, if_neg he]
                exact hnone hl
            · intro st hst
              rw [lookupKey_cons] at hst
              rw [lookupKey_cons]
              by_cases he : key = k
              · rw [if_pos he] at hst
                have hest : est = st := Option.some.inj hst
                rw [if_pos he, if_pos ((hq3 he) ▸ hqH2)]
                rw [← hest]
                rw [if_neg h2]
              · rw [if_neg he] at hst
                rw [if_neg he]
                exact hsome st hst

/-- Reverse lookup characterisation of the sweep: any surviving record is
the pre-sweep record with its confirmation possibly upgraded — the sweep
never resets a confirmation and never rewrites timestamps. -/
theorem sweepConfirm_lookup_rev (H : List GoStr) (now : Int) :
    ∀ (m m2 : VolumeMap), sweepConfirm H now m = some m2 →
    ∀ (k : GoStr) (st2 : EphemeralStatus), lookupKey m2 k = some st2 →
    ∃ st1, lookupKey m k = some st1 ∧
      st2 = (if now - st1.timestamp > 2 then
        { timestamp := st1.timestamp, confirmed := true } else st1) := by
  intro m
  induction m with
  | nil =>
    intro m2 hs k st2 hl
    simp only [sweepConfirm] at hs
    rw [← Option.some.inj hs] at hl
    exact absurd hl (by simp [lookupKey])
  | cons e rest ih =>
    obtain ⟨key, est⟩ := e
    intro m2 hs k st2 hl
    simp only [sweepConfirm] at hs
    cases hq : parseVolumeKey key with
    | none => rw [hq] at hs; exact absurd hs (by cases sweepConfirm H now rest <;> simp)
    | some trip =>
      obtain ⟨q1, q2, q3⟩ := trip
      rw [hq] at hs
      cases hs0 : sweepConfirm H now rest with
      | none => rw [hs0] at hs; exact absurd hs (by simp)
      | some tail =>
        rw [hs0] at hs
        simp only [] at hs
        by_cases hqH : q3 ∉ H
        · rw [if_pos hqH] at hs
          rw [← Option.some.inj hs] at hl
          by_cases he : key = k
          · subst he
            obtain ⟨hnone, hsome⟩ :=
              sweepConfirm_lookup H now rest tail hs0 key q1 q2 q3 hq
            cases hr : lookupKey rest key with
            | none => rw [hnone hr] at hl; exact absurd hl (by simp)
            | some st0 =>
              rw [hsome st0 hr, if_neg hqH] at hl
              exact absurd hl (by simp)
          · obtain ⟨st1, hst1, hform⟩ := ih tail hs0 k st2 hl
            exact ⟨st1, by rw [lookupKey_cons, if_neg he]; exact hst1, hform⟩
        · rw [if_neg hqH] at hs
          by_cases h2 : now - est.timestamp > 2
          · rw [if_pos h2] at hs
            rw [← Option.some.inj hs] at hl
            rw [lookupKey_cons] at hl
            by_cases he : key = k
            · rw [if_pos he] at hl
              refine ⟨est, by rw [lookupKey_cons, if_pos he], ?_⟩
              rw [if_pos h2]
              exact (Option.some.inj hl).symm
            · rw [if_neg he] at hl
              obtain ⟨st1, hst1, hform⟩ := ih tail hs0 k st2 hl
              exact ⟨st1, by rw [lookupKey_cons, if_neg he]; exact hst1, hform⟩
          · rw [if_neg h2] at hs
            rw [← Option.some.inj hs] at hl
            rw [lookupKey_cons] at hl
            by_cases he : key = k
            · rw [if_pos he] at hl
              refine ⟨est, by rw [lookupKey_cons, if_pos he], ?_⟩
              rw [if_neg h2]
              exact (Option.some.inj hl).symm
            · rw [if_neg he] at hl
              obtain ⟨st1, hst1, hform⟩ := ih tail hs0 k st2 hl
              exact ⟨st1, by rw [lookupKey_cons, if_neg he]; exact hst1, hform⟩

/-- Every key of the tracker map parses (no call can panic on it). -/
def KeysParse (m : VolumeMap) : Prop := ∀ e ∈ m, (parseVolumeKey e.1).isSome

instance (m : VolumeMap) : Decidable (KeysParse m) := by
  unfold KeysParse
  infer_instance

/-- Every key of the tracker map is an assembled key with delimiter-free
components (the documented key-encoding invariant). -/
def WfMap (m : VolumeMap) : Prop :=
  ∀ e ∈ m, ∃ a b c, noSlash a ∧ noSlash b ∧ noSlash c ∧ e.1 = mkKey a b c

/-- The instance's identifying strings and volume names are delimiter-free
(Kubernetes object and volume names cannot contain "/"). -/
def wfVMI (vmi : VirtualMachineInstance) : Prop :=
  noSlash vmi.Namespace ∧ noSlash vmi.Name ∧
    ∀ v ∈ vmi.Spec.Volumes, noSlash v.Name

instance (vmi : VirtualMachineInstance) : Decidable (wfVMI vmi) := by
  unfold wfVMI
  infer_instance

theorem observe_some_eq (vmi : VirtualMachineInstance) (vm : VirtualMachine)
    (now : Int) (m : VolumeMap) :
    UpdateEphemeralVolumeCount (some vmi) (some vm) now m =
      sweepConfirm (hotplugNames vmi) now
        (phase1 (templateNames vm) vmi.Namespace vmi.Name now
          vmi.Spec.Volumes m) := rfl

theorem observe_none_left (vm : Option VirtualMachine) (now : Int)
    (m : VolumeMap) : UpdateEphemeralVolumeCount none vm now m = some m := rfl

theorem observe_none_right (vmi : Option VirtualMachineInstance) (now : Int)
    (m : VolumeMap) : UpdateEphemeralVolumeCount vmi none now m = some m := by
  cases vmi <;> rfl

/-- On a map whose keys all parse, a full observe call cannot panic. -/
theorem observe_isSome (vmi : VirtualMachineInstance) (vm : VirtualMachine)
    (now : Int) (m : VolumeMap) (h : KeysParse m) :
    (UpdateEphemeralVolumeCount (some vmi) (some vm) now m).isSome := by
  rw [observe_some_eq]
  apply sweepConfirm_isSome
  intro e he
  rcases phase1_mem (templateNames vm) vmi.Namespace vmi.Name now
    vmi.Spec.Volumes m e he with hc | ⟨v, _, hk⟩
  · exact h e hc
  · rw [hk]
    exact parseVolumeKey_mkKey_isSome _ _ _

/-- An observe call keeps every key parseable. -/
theorem observe_keysParse (vmi : VirtualMachineInstance) (vm : VirtualMachine)
    (now : Int) (m m2 : VolumeMap)
    (hobs : UpdateEphemeralVolumeCount (some vmi) (some vm) now m = some m2)
    (h : KeysParse m) : KeysParse m2 := by
  rw [observe_some_eq] at hobs
  intro e2 he2
  obtain ⟨st0, hst0⟩ := sweepConfirm_mem (hotplugNames vmi) now _ m2 hobs e2 he2
  rcases phase1_mem (templateNames vm) vmi.Namespace vmi.Name now
    vmi.Spec.Volumes m _ hst0 with hc | ⟨v, _, hk⟩
  · exact h (e2.1, st0) hc
  · rw [show e2.1 = (e2.1, st0).1 from rfl, hk]
    exact parseVolumeKey_mkKey_isSome _ _ _

/-- An observe call for a well-formed instance keeps every key an
assembled key with delimiter-free components. -/
theorem observe_wfMap (vmi : VirtualMachineInstance) (vm : VirtualMachine)
    (now : Int) (m m2 : VolumeMap)
    (hobs : UpdateEphemeralVolumeCount (some vmi) (some vm) now m = some m2)
    (hvmi : wfVMI vmi) (h : WfMap m) : WfMap m2 := by
  rw [observe_some_eq] at hobs
  intro e2 he2
  obtain ⟨st0, hst0⟩ := sweepConfirm_mem (hotplugNames vmi) now _ m2 hobs e2 he2
  rcases phase1_mem (templateNames vm) vmi.Namespace vmi.Name now
    vmi.Spec.Volumes m _ hst0 with hc | ⟨v, hv, hk⟩
  · exact h (e2.1, st0) hc
  · exact ⟨vmi.Namespace, vmi.Name, v.Name, hvmi.1, hvmi.2.1, hvmi.2.2 v hv, hk⟩

/-- A key whose volume name is not in the call's live hotplug set is gone
after the call, whatever instance it belongs to (the sweep is keyed by
volume name only). -/
theorem observe_lookup_not_hotplug (vmi : VirtualMachineInstance)
    (vm : VirtualMachine) (now : Int) (m m2 : VolumeMap) (ns nm vn : GoStr)
    (hns : noSlash ns) (hnm : noSlash nm) (hvn : noSlash vn)
    (hobs : UpdateEphemeralVolumeCount (some vmi) (some vm) now m = some m2)
    (hH : vn ∉ hotplugNames vmi) :
    lookupKey m2 (mkKey ns nm vn) = none := by
  rw [observe_some_eq] at hobs
  obtain ⟨hnone, hsome⟩ := sweepConfirm_lookup (hotplugNames vmi) now _ m2 hobs
    (mkKey ns nm vn) ns nm vn (parseVolumeKey_mkKey ns nm vn hns hnm hvn)
  cases hl : lookupKey (phase1 (templateNames vm) vmi.Namespace vmi.Name now
      vmi.Spec.Volumes m) (mkKey ns nm vn) with
  | none => exact hnone hl
  | some st => rw [hsome st hl, if_neg hH]

/-- A key of a different instance whose volume name does appear in the
call's live hotplug set survives and is even run through the confirmation
step — another instance's call can confirm it. -/
theorem observe_lookup_other_instance (vmi : VirtualMachineInstance)
    (vm : VirtualMachine) (now : Int) (m m2 : VolumeMap) (ns nm vn : GoStr)
    (hns : noSlash ns) (hnm : noSlash nm) (hvn : noSlash vn)
    (hvmi : wfVMI vmi)
    (hobs : UpdateEphemeralVolumeCount (some vmi) (some vm) now m = some m2)
    (hH : vn ∈ hotplugNames vmi)
    (hinst : ¬(ns = vmi.Namespace ∧ nm = vmi.Name)) :
    (lookupKey m (mkKey ns nm vn) = none →
      lookupKey m2 (mkKey ns nm vn) = none) ∧
    (∀ st, lookupKey m (mkKey ns nm vn) = some st →
      lookupKey m2 (mkKey ns nm vn) =
        some (if now - st.timestamp > 2 then
          { timestamp := st.timestamp, confirmed := true } else st)) := by
  rw [observe_some_eq] at hobs
  have hother : lookupKey (phase1 (templateNames vm) vmi.Namespace vmi.Name now
      vmi.Spec.Volumes m) (mkKey ns nm vn) = lookupKey m (mkKey ns nm vn) := by
    refine phase1_other (templateNames vm) vmi.Namespace vmi.Name now
      vmi.Spec.Volumes m _ ?_
    intro v hv _ heq
    obtain ⟨h1, h2, _⟩ := mkKey_inj hvmi.1 hvmi.2.1 (hvmi.2.2 v hv) hns hnm hvn heq
    exact hinst ⟨h1.symm, h2.symm⟩
  obtain ⟨hnone, hsome⟩ := sweepConfirm_lookup (hotplugNames vmi) now _ m2 hobs
    (mkKey ns nm vn) ns nm vn (parseVolumeKey_mkKey ns nm vn hns hnm hvn)
  constructor
  · intro hl
    exact hnone (hother.trans hl)
  · intro st hl
    rw [hsome st (hother.trans hl), if_pos hH]

/-- Same-instance key that the operator has since declared in the template:
deleted inside the grace window; outside it, kept with its original
timestamp but run through the confirmation step. -/
theorem observe_lookup_declared (vmi : VirtualMachineInstance)
    (vm : VirtualMachine) (now : Int) (m m2 : VolumeMap) (ns nm vn : GoStr)
    (hns : noSlash ns) (hnm : noSlash nm) (hvn : noSlash vn)
    (hnsEq : ns = vmi.Namespace) (hnmEq : nm = vmi.Name)
    (hobs : UpdateEphemeralVolumeCount (some vmi) (some vm) now m = some m2)
    (hH : vn ∈ hotplugNames vmi) (hT : vn ∈ templateNames vm) :
    (∀ st, lookupKey m (mkKey ns nm vn) = some st → now - st.timestamp ≤ 60 →
      lookupKey m2 (mkKey ns nm vn) = none) ∧
    (∀ st, lookupKey m (mkKey ns nm vn) = some st →
      ¬(now - st.timestamp ≤ 60) →
      lookupKey m2 (mkKey ns nm vn) =
        some { timestamp := st.timestamp, confirmed := true }) ∧
    (lookupKey m (mkKey ns nm vn) = none →
      lookupKey m2 (mkKey ns nm vn) = none) := by
  subst hnsEq
  subst hnmEq
  rw [observe_some_eq] at hobs
  obtain ⟨hnone, hsome⟩ := sweepConfirm_lookup (hotplugNames vmi) now _ m2 hobs
    (mkKey vmi.Namespace vmi.Name vn) vmi.Namespace vmi.Name vn
    (parseVolumeKey_mkKey _ _ vn hns hnm hvn)
  refine ⟨?_, ?_, ?_⟩
  · intro st hl h60
    exact hnone (phase1_grace_delete (templateNames vm) vmi.Namespace vmi.Name vn
      now vmi.Spec.Volumes m st hT hH hl h60)
  · intro st hl h60
    have h1 : lookupKey (phase1 (templateNames vm) vmi.Namespace vmi.Name now
        vmi.Spec.Volumes m) (mkKey vmi.Namespace vmi.Name vn) = some st :=
      phase1_preserve_some (templateNames vm) vmi.Namespace vmi.Name vn now
        vmi.Spec.Volumes m st hl (fun _ => h60)
    rw [hsome st h1, if_pos hH, if_pos (by omega)]
  · intro hl
    exact hnone (phase1_preserve_none_declared (templateNames vm) vmi.Namespace
      vmi.Name vn now vmi.Spec.Volumes m hT hl)

/-- Same-instance hotplug-only key (still undeclared): an existing record
keeps its timestamp and is confirmed once old enough; a missing record is
created unconfirmed and stamped `now`. -/
theorem observe_lookup_undeclared (vmi : VirtualMachineInstance)
    (vm : VirtualMachine) (now : Int) (m m2 : VolumeMap) (ns nm vn : GoStr)
    (hns : noSlash ns) (hnm : noSlash nm) (hvn : noSlash vn)
    (hnsEq : ns = vmi.Namespace) (hnmEq : nm = vmi.Name)
    (hobs : UpdateEphemeralVolumeCount (some vmi) (some vm) now m = some m2)
    (hH : vn ∈ hotplugNames vmi) (hT : vn ∉ templateNames vm) :
    (∀ st, lookupKey m (mkKey ns nm vn) = some st →
      lookupKey m2 (mkKey ns nm vn) =
        some (if now - st.timestamp > 2 then
          { timestamp := st.timestamp, confirmed := true } else st)) ∧
    (lookupKey m (mkKey ns nm vn) = none →
      lookupKey m2 (mkKey ns nm vn) =
        some { timestamp := now, confirmed := false }) := by
  subst hnsEq
  subst hnmEq
  rw [observe_some_eq] at hobs
  obtain ⟨hnone, hsome⟩ := sweepConfirm_lookup (hotplugNames vmi) now _ m2 hobs
    (mkKey vmi.Namespace vmi.Name vn) vmi.Namespace vmi.Name vn
    (parseVolumeKey_mkKey _ _ vn hns hnm hvn)
  constructor
  · intro st hl
    have h1 : lookupKey (phase1 (templateNames vm) vmi.Namespace vmi.Name now
        vmi.Spec.Volumes m) (mkKey vmi.Namespace vmi.Name vn) = some st :=
      phase1_preserve_some (templateNames vm) vmi.Namespace vmi.Name vn now
        vmi.Spec.Volumes m st hl (fun hc => absurd hc hT)
    rw [hsome st h1, if_pos hH]
  · intro hl
    have h1 : lookupKey (phase1 (templateNames vm) vmi.Namespace vmi.Name now
        vmi.Spec.Volumes m) (mkKey vmi.Namespace vmi.Name vn) =
        some { timestamp := now, confirmed := false } :=
      phase1_create (templateNames vm) vmi.Namespace vmi.Name vn now
        vmi.Spec.Volumes m hT hH hl
    rw [hsome _ h1, if_pos hH, if_neg (by simp)]

/-- Reverse direction of a full observe call: every surviving record is the
phase-1 record with confirmation possibly upgraded, and the phase-1 record
is either the original one or a fresh unconfirmed one. -/
theorem observe_lookup_rev (vmi : VirtualMachineInstance) (vm : VirtualMachine)
    (now : Int) (m m2 : VolumeMap) (k : GoStr) (st2 : EphemeralStatus)
    (hobs : UpdateEphemeralVolumeCount (some vmi) (some vm) now m = some m2)
    (h : lookupKey m2 k = some st2) :
    ∃ st1, (lookupKey m k = some st1 ∨
        (st1 = { timestamp := now, confirmed := false } ∧ lookupKey m k = none)) ∧
      st2 = (if now - st1.timestamp > 2 then
        { timestamp := st1.timestamp, confirmed := true } else st1) := by
  rw [observe_some_eq] at hobs
  obtain ⟨st1, hst1, hform⟩ :=
    sweepConfirm_lookup_rev (hotplugNames vmi) now _ m2 hobs k st2 h
  exact ⟨st1, phase1_lookup_cases (templateNames vm) vmi.Namespace vmi.Name now
    vmi.Spec.Volumes m k st1 hst1, hform⟩

/-- One invocation of the write path: the two object references handed to
`UpdateEphemeralVolumeCount` and the call's clock reading. -/
structure ObsCall where
  vmi : Option VirtualMachineInstance
  vm : Option VirtualMachine
  now : Int
  deriving DecidableEq

/-- Run one recorded call against a tracker map. -/
def applyObs (c : ObsCall) (m : VolumeMap) : Option VolumeMap :=
  UpdateEphemeralVolumeCount c.vmi c.vm c.now m

/-- `applyObs` totalised: identical to `applyObs` whenever the call does
not panic, which is the case on every map arising in this development. -/
def applyObsD (c : ObsCall) (m : VolumeMap) : VolumeMap := (applyObs c m).getD m

/-- Run a finite sequence of recorded calls, propagating a panic. -/
def runTrace : List ObsCall → VolumeMap → Option VolumeMap
  | [], m => some m
  | c :: rest, m =>
    match applyObs c m with
    | none => none
    | some m2 => runTrace rest m2

/-- A recorded call references a well-formed instance (if any). -/
def wfCall (c : ObsCall) : Prop :=
  match c.vmi with
  | some vmi => wfVMI vmi
  | none => True

instance (c : ObsCall) : Decidable (wfCall c) := by
  unfold wfCall
  cases c.vmi <;> infer_instance

/-- The call observes volume `vn` as hotplug-eligible in instance
`(ns, nm)`'s live volume set while absent from the desired template — the
condition under which the source creates (or retains) a tracking record. -/
def createsRecord (c : ObsCall) (ns nm vn : GoStr) : Prop :=
  match c.vmi, c.vm with
  | some vmi, some vm =>
    ns = vmi.Namespace ∧ nm = vmi.Name ∧
      vn ∈ hotplugNames vmi ∧ vn ∉ templateNames vm
  | _, _ => False

instance (c : ObsCall) (ns nm vn : GoStr) :
    Decidable (createsRecord c ns nm vn) := by
  unfold createsRecord
  cases c.vmi <;> cases c.vm <;> infer_instance

/-- The record at this key is inside the 60-second grace window at `now`. -/
def withinGrace (now : Int) (o : Option EphemeralStatus) : Bool :=
  match o with
  | some st => decide (now - st.timestamp ≤ 60)
  | none => false

/-- The call leaves an existing record for `(ns, nm, vn)` in place: the
volume name is in the call's live hotplug set (else the sweep deletes it,
whatever instance it belongs to) and the call does not grace-delete it
(same instance, name declared in the template, within the window). A call
missing either object keeps everything. -/
def keepsRecord (c : ObsCall) (m : VolumeMap) (ns nm vn : GoStr) : Prop :=
  match c.vmi, c.vm with
  | some vmi, some vm =>
    vn ∈ hotplugNames vmi ∧
    ¬(ns = vmi.Namespace ∧ nm = vmi.Name ∧ vn ∈ templateNames vm ∧
      withinGrace c.now (lookupKey m (mkKey ns nm vn)) = true)
  | _, _ => True

instance (c : ObsCall) (m : VolumeMap) (ns nm vn : GoStr) :
    Decidable (keepsRecord c m ns nm vn) := by
  unfold keepsRecord
  cases c.vmi <;> cases c.vm <;> infer_instance

/-- Every call of the list keeps the record, threading the tracker state. -/
def keptThrough (ns nm vn : GoStr) : List ObsCall → VolumeMap → Prop
  | [], _ => True
  | c :: rest, m =>
    keepsRecord c m ns nm vn ∧ keptThrough ns nm vn rest (applyObsD c m)

/-- Some call of the list observed the volume hotplug-only for this
instance, and every later call kept the record. -/
def everCreatedAndKept (ns nm vn : GoStr) : List ObsCall → VolumeMap → Prop
  | [], _ => False
  | c :: rest, m =>
    (createsRecord c ns nm vn ∧ keptThrough ns nm vn rest (applyObsD c m)) ∨
      everCreatedAndKept ns nm vn rest (applyObsD c m)

theorem keptThrough_cons (ns nm vn : GoStr) (c : ObsCall) (rest : List ObsCall)
    (m : VolumeMap) :
    keptThrough ns nm vn (c :: rest) m ↔
      (keepsRecord c m ns nm vn ∧ keptThrough ns nm vn rest (applyObsD c m)) :=
  Iff.rfl

theorem everCreatedAndKept_cons (ns nm vn : GoStr) (c : ObsCall)
    (rest : List ObsCall) (m : VolumeMap) :
    everCreatedAndKept ns nm vn (c :: rest) m ↔
      ((createsRecord c ns nm vn ∧ keptThrough ns nm vn rest (applyObsD c m)) ∨
        everCreatedAndKept ns nm vn rest (applyObsD c m)) :=
  Iff.rfl

/-- Single-call membership characterisation: after a call, the key is
present iff the call observed it hotplug-only for its instance, or it was
present before and the call kept it. -/
theorem observe_step_iff (c : ObsCall) (m m2 : VolumeMap) (ns nm vn : GoStr)
    (hns : noSlash ns) (hnm : noSlash nm) (hvn : noSlash vn)
    (hwf : wfCall c) (hobs : applyObs c m = some m2) :
    (mkKey ns nm vn ∈ mapKeys m2 ↔
      (createsRecord c ns nm vn ∨
        (mkKey ns nm vn ∈ mapKeys m ∧ keepsRecord c m ns nm vn))) := by
  obtain ⟨vmio, vmo, now⟩ := c
  cases vmio with
  | none =>
    have hm : m = m2 := Option.some.inj hobs
    subst hm
    simp [createsRecord, keepsRecord]
  | some vmi =>
    cases vmo with
    | none =>
      have hm : m = m2 := Option.some.inj hobs
      subst hm
      simp [createsRecord, keepsRecord]
    | some vm =>
      have hvmi : wfVMI vmi := hwf
      unfold applyObs at hobs
      simp only [createsRecord, keepsRecord, withinGrace]
      rw [mem_mapKeys_iff, mem_mapKeys_iff]
      by_cases hH : vn ∈ hotplugNames vmi
      · by_cases hinst : ns = vmi.Namespace ∧ nm = vmi.Name
        · by_cases hT : vn ∈ templateNames vm
          · obtain ⟨part1, part2, part3⟩ := observe_lookup_declared vmi vm now m m2
              ns nm vn hns hnm hvn hinst.1 hinst.2 hobs hH hT
            cases hl : lookupKey m (mkKey ns nm vn) with
            | none =>
              rw [part3 hl]
              simp [hinst.1, hinst.2, hH, hT]
            | some st =>
              by_cases h60 : now - st.timestamp ≤ 60
              · rw [part1 st hl h60]
                simp [hinst.1, hinst.2, hH, hT, h60]
              · rw [part2 st hl h60]
                simp [hinst.1, hinst.2, hH, hT, h60]
          · obtain ⟨part1, part2⟩ := observe_lookup_undeclared vmi vm now m m2
              ns nm vn hns hnm hvn hinst.1 hinst.2 hobs hH hT
            cases hl : lookupKey m (mkKey ns nm vn) with
            | none =>
              rw [part2 hl]
              simp [hinst.1, hinst.2, hH, hT]
            | some st =>
              rw [part1 st hl]
              simp [hinst.1, hinst.2, hH, hT]
        · obtain ⟨part1, part2⟩ := observe_lookup_other_instance vmi vm now m m2
            ns nm vn hns hnm hvn hvmi hobs hH hinst
          cases hl : lookupKey m (mkKey ns nm vn) with
          | none =>
            rw [part1 hl]
            simp only [Option.isSome_none, Bool.false_eq_true, false_iff]
            intro hc
            rcases hc with hc | hc
            · exact hinst ⟨hc.1, hc.2.1⟩
            · simp at hc
          | some st =>
            rw [part2 st hl]
            simp only [Option.isSome_some, true_iff]
            refine Or.inr ⟨by trivial, hH, ?_⟩
            intro hc
            exact hinst ⟨hc.1, hc.2.1⟩
      · rw [observe_lookup_not_hotplug vmi vm now m m2 ns nm vn hns hnm hvn
          hobs hH]
        simp only [Option.isSome_none, Bool.false_eq_true, false_iff]
        intro hc
        rcases hc with hc | hc
        · exact hH hc.2.2.1
        · exact hH hc.2.1

/-- Trace-level membership characterisation, for an arbitrary starting
map: the key is tracked at the end iff some call created it and every
later call kept it, or it was tracked at the start and every call kept
it. -/
theorem runTrace_mem_char (ns nm vn : GoStr)
    (hns : noSlash ns) (hnm : noSlash nm) (hvn : noSlash vn) :
    ∀ (tr : List ObsCall) (m m2 : VolumeMap),
    (∀ c ∈ tr, wfCall c) →
    runTrace tr m = some m2 →
    (mkKey ns nm vn ∈ mapKeys m2 ↔
      (everCreatedAndKept ns nm vn tr m ∨
        (mkKey ns nm vn ∈ mapKeys m ∧ keptThrough ns nm vn tr m))) := by
  intro tr
  induction tr with
  | nil =>
    intro m m2 _ hrun
    have hm : m = m2 := Option.some.inj hrun
    subst hm
    simp [everCreatedAndKept, keptThrough]
  | cons c rest ih =>
    intro m m2 hwf hrun
    unfold runTrace at hrun
    cases ha : applyObs c m with
    | none => rw [ha] at hrun; exact absurd hrun (by simp)
    | some m1 =>
      rw [ha] at hrun
      have hstep := observe_step_iff c m m1 ns nm vn hns hnm hvn
        (hwf c (List.mem_cons_self c rest)) ha
      have hih := ih m1 m2 (fun c2 hc2 => hwf c2 (List.mem_cons_of_mem c hc2)) hrun
      have hD : applyObsD c m = m1 := by unfold applyObsD; rw [ha]; rfl
      rw [everCreatedAndKept_cons, keptThrough_cons, hD, hih, hstep]
      constructor
      · rintro (hev | ⟨hc, hkept⟩)
        · exact Or.inl (Or.inr hev)
        · rcases hc with hcr | ⟨hmem, hkeep⟩
          · exact Or.inl (Or.inl ⟨hcr, hkept⟩)
          · exact Or.inr ⟨hmem, hkeep, hkept⟩
      · rintro ((⟨hcr, hkept⟩ | hev) | ⟨hmem, hkeep, hkept⟩)
        · exact Or.inr ⟨Or.inl hcr, hkept⟩
        · exact Or.inl hev
        · exact Or.inr ⟨Or.inr ⟨hmem, hkeep⟩, hkept⟩

/-- `everCreatedAndKept` can only hold when some call of the trace
actually observed the volume hotplug-only for the instance. -/
theorem everCreatedAndKept_exists_creator (ns nm vn : GoStr) :
    ∀ (tr : List ObsCall) (m : VolumeMap),
    everCreatedAndKept ns nm vn tr m →
    ∃ c ∈ tr, createsRecord c ns nm vn := by
  intro tr
  induction tr with
  | nil => intro m h; exact absurd h (by simp [everCreatedAndKept])
  | cons c rest ih =>
    intro m h
    unfold everCreatedAndKept at h
    rcases h with h | h
    · exact ⟨c, List.mem_cons_self c rest, h.1⟩
    · obtain ⟨c2, hc2, hcr⟩ := ih _ h
      exact ⟨c2, List.mem_cons_of_mem c hc2, hcr⟩

theorem mem_mapKeys_of_mem {e : GoStr × EphemeralStatus} {m : VolumeMap}
    (h : e ∈ m) : e.1 ∈ mapKeys m :=
  List.mem_map.mpr ⟨e, h, rfl⟩

/-- The collection callback succeeds when every stored key parses. -/
theorem callback_isSome :
    ∀ m : VolumeMap, KeysParse m → (EphemeralVolumeMetricsCallback m).isSome := by
  intro m
  induction m with
  | nil => intro _; rfl
  | cons e rest ih =>
    intro h
    obtain ⟨key, est⟩ := e
    obtain ⟨tail, hcb⟩ := Option.isSome_iff_exists.mp
      (ih (fun e2 he2 => h e2 (List.mem_cons_of_mem _ he2)))
    obtain ⟨trip, hp⟩ := Option.isSome_iff_exists.mp
      (h (key, est) (List.mem_cons_self _ _))
    obtain ⟨q1, q2, q3⟩ := trip
    simp only [EphemeralVolumeMetricsCallback, hcb, hp]
    by_cases hc : est.confirmed = false
    · rw [if_pos hc]; rfl
    · rw [if_neg hc]; rfl

/-- Every emitted sample comes from a currently confirmed record: its
labels are the parsed key components and its value is 1. -/
theorem callback_mem :
    ∀ (m : VolumeMap) (rs : List CollectorResult),
    EphemeralVolumeMetricsCallback m = some rs →
    ∀ r ∈ rs, ∃ k st p1 p2 p3, (k, st) ∈ m ∧ st.confirmed = true ∧
      parseVolumeKey k = some (p1, p2, p3) ∧
      r = { labels := [p1, p2, p3], value := 1 } := by
  intro m
  induction m with
  | nil =>
    intro rs hs r hr
    simp only [EphemeralVolumeMetricsCallback] at hs
    rw [← Option.some.inj hs] at hr
    exact absurd hr (by simp)
  | cons e rest ih =>
    obtain ⟨key, est⟩ := e
    intro rs hs r hr
    simp only [EphemeralVolumeMetricsCallback] at hs
    cases hcb : EphemeralVolumeMetricsCallback rest with
    | none => rw [hcb] at hs; exact absurd hs (by simp)
    | some tail =>
      rw [hcb] at hs
      simp only [] at hs
      have step : r ∈ tail → _ := fun htail => ih tail hcb r htail
      by_cases hc : est.confirmed = false
      · rw [if_pos hc] at hs
        rw [← Option.some.inj hs] at hr
        obtain ⟨k, st, p1, p2, p3, hm, hcf, hp, hform⟩ := step hr
        exact ⟨k, st, p1, p2, p3, List.mem_cons_of_mem _ hm, hcf, hp, hform⟩
      · rw [if_neg hc] at hs
        cases hp : parseVolumeKey key with
        | none => rw [hp] at hs; exact absurd hs (by simp)
        | some trip =>
          obtain ⟨q1, q2, q3⟩ := trip
          rw [hp] at hs
          rw [← Option.some.inj hs] at hr
          rcases List.mem_cons.mp hr with hr0 | hr0
          · exact ⟨key, est, q1, q2, q3, List.mem_cons_self _ _,
              Bool.not_eq_false est.confirmed ▸ hc, hp, hr0⟩
          · obtain ⟨k, st, p1, p2, p3, hm, hcf, hpk, hform⟩ := step hr0
            exact ⟨k, st, p1, p2, p3, List.mem_cons_of_mem _ hm, hcf, hpk, hform⟩

/-- Every currently confirmed record contributes its sample. -/
theorem callback_complete :
    ∀ (m : VolumeMap) (rs : List CollectorResult),
    EphemeralVolumeMetricsCallback m = some rs →
    ∀ k st, (k, st) ∈ m → st.confirmed = true →
    ∀ p1 p2 p3, parseVolumeKey k = some (p1, p2, p3) →
    ({ labels := [p1, p2, p3], value := 1 } : CollectorResult) ∈ rs := by
  intro m
  induction m with
  | nil =>
    intro rs _ k st hm
    exact absurd hm (by simp)
  | cons e rest ih =>
    obtain ⟨key, est⟩ := e
    intro rs hs k st hm hcf p1 p2 p3 hp
    simp only [EphemeralVolumeMetricsCallback] at hs
    cases hcb : EphemeralVolumeMetricsCallback rest with
    | none => rw [hcb] at hs; exact absurd hs (by simp)
    | some tail =>
      rw [hcb] at hs
      simp only [] at hs
      rcases List.mem_cons.mp hm with hm0 | hm0
      · have hkey : key = k := (Prod.mk.inj hm0.symm).1
        have hest : est = st := (Prod.mk.inj hm0.symm).2
        subst hkey
        subst hest
        rw [if_neg (by rw [hcf]; simp), hp] at hs
        rw [← Option.some.inj hs]
        exact List.mem_cons_self _ _
      · have htail : ({ labels := [p1, p2, p3], value := 1 } : CollectorResult)
            ∈ tail := ih tail hcb k st hm0 hcf p1 p2 p3 hp
        by_cases hc : est.confirmed = false
        · rw [if_pos hc] at hs
          rw [← Option.some.inj hs]
          exact htail
        · rw [if_neg hc] at hs
          cases hpk : parseVolumeKey key with
          | none => rw [hpk] at hs; exact absurd hs (by simp)
          | some trip =>
            obtain ⟨q1, q2, q3⟩ := trip
            rw [hpk] at hs
            rw [← Option.some.inj hs]
            exact List.mem_cons_of_mem _ htail

/-- The callback emits exactly one sample per confirmed record. -/
theorem callback_length :
    ∀ (m : VolumeMap) (rs : List CollectorResult),
    EphemeralVolumeMetricsCallback m = some rs →
    rs.length = (m.filter (fun e => e.2.confirmed)).length := by
  intro m
  induction m with
  | nil =>
    intro rs hs
    simp only [EphemeralVolumeMetricsCallback] at hs
    rw [← Option.some.inj hs]
    rfl
  | cons e rest ih =>
    obtain ⟨key, est⟩ := e
    intro rs hs
    simp only [EphemeralVolumeMetricsCallback] at hs
    cases hcb : EphemeralVolumeMetricsCallback rest with
    | none => rw [hcb] at hs; exact absurd hs (by simp)
    | some tail =>
      rw [hcb] at hs
      simp only [] at hs
      by_cases hc : est.confirmed = false
      · rw [if_pos hc] at hs
        rw [← Option.some.inj hs, List.filter_cons]
        simp only [hc]
        simp [ih tail hcb]
      · rw [if_neg hc] at hs
        cases hpk : parseVolumeKey key with
        | none => rw [hpk] at hs; exact absurd hs (by simp)
        | some trip =>
          obtain ⟨q1, q2, q3⟩ := trip
          rw [hpk] at hs
          rw [← Option.some.inj hs, List.filter_cons]
          have hct : est.confirmed = true := Bool.not_eq_false est.confirmed ▸ hc
          simp only [hct]
          simp [ih tail hcb]

/-- On a well-formed map not containing the key, the callback never emits
the key's label triple. -/
theorem callback_no_label (m : VolumeMap) (rs : List CollectorResult)
    (hwf : WfMap m) (hcb : EphemeralVolumeMetricsCallback m = some rs)
    (ns nm vn : GoStr) (hnot : mkKey ns nm vn ∉ mapKeys m) :
    ∀ r ∈ rs, r.labels ≠ [ns, nm, vn] := by
  intro r hr hlab
  obtain ⟨k, st, p1, p2, p3, hm, _, hp, hform⟩ := callback_mem m rs hcb r hr
  obtain ⟨a, b, c, hna, hnb, hnc, hk⟩ := hwf (k, st) hm
  rw [hform] at hlab
  simp only [] at hlab
  have h1 : p1 = ns ∧ p2 = nm ∧ p3 = vn := by
    have := List.cons.inj hlab
    have h2 := List.cons.inj this.2
    have h3 := List.cons.inj h2.2
    exact ⟨this.1, h2.1, h3.1⟩
  have hk2 : k = mkKey a b c := hk
  rw [hk2, parseVolumeKey_mkKey a b c hna hnb hnc] at hp
  have h2 := Option.some.inj hp
  have ha : a = p1 := (Prod.mk.inj h2).1
  have hb : b = p2 := (Prod.mk.inj (Prod.mk.inj h2).2).1
  have hcv : c = p3 := (Prod.mk.inj (Prod.mk.inj h2).2).2
  apply hnot
  have hkk : k = mkKey ns nm vn := by
    rw [hk2, ha, hb, hcv, h1.1, h1.2.1, h1.2.2]
  rw [← hkk]
  exact mem_mapKeys_of_mem hm

/-- The read failure of the memory-overhead gauge. Modelled from the spec:
`get` "fails with a `NotRecorded` condition if no sample exists for the
label pair" — the gauge-vector state itself lives in the external
operator-observability / Prometheus client libraries, which are not part
of this repository's sources. -/
inductive GaugeReadError where
  | notRecorded
  deriving DecidableEq

/-- Modelled from the spec: the state of the per-instance launcher
memory-overhead gauge vector, a sample per `(namespace, name)` label pair.
The sample value is the integer `memoryOverhead.Value()` the source passes
to `Set` (its `float64` conversion is treated as exact). -/
abbrev MemoryOverheadGauge := List ((GoStr × GoStr) × Int)

/-- Last-written sample for a label pair, if any. -/
def lookupGauge (g : MemoryOverheadGauge) (p : GoStr × GoStr) : Option Int :=
  match g with
  | [] => none
  | e :: rest => if e.1 = p then some e.2 else lookupGauge rest p

/-- `SetVmiLaucherMemoryOverhead` from the source, over the spec-modelled
gauge: an unconditional overwrite of the `(vmi.Namespace, vmi.Name)`
sample, with no validation of the value. -/
def SetVmiLaucherMemoryOverhead (ns nm : GoStr) (value : Int)
    (g : MemoryOverheadGauge) : MemoryOverheadGauge :=
  ((ns, nm), value) :: g

/-- `GetVmiLaucherMemoryOverhead` from the source, over the spec-modelled
gauge: the last set value, or the not-recorded failure when no sample was
ever set for the label pair. -/
def GetVmiLaucherMemoryOverhead (ns nm : GoStr) (g : MemoryOverheadGauge) :
    Except GaugeReadError Int :=
  match lookupGauge g (ns, nm) with
  | some v => Except.ok v
  | none => Except.error GaugeReadError.notRecorded

/-- Run a list of recorded set operations `(namespace, name, value)`. -/
def runSets : List (GoStr × GoStr × Int) → MemoryOverheadGauge → MemoryOverheadGauge
  | [], g => g
  | op :: rest, g => runSets rest (SetVmiLaucherMemoryOverhead op.1 op.2.1 op.2.2 g)

theorem lookupGauge_runSets_untouched (ns nm : GoStr) :
    ∀ (ops : List (GoStr × GoStr × Int)) (g : MemoryOverheadGauge),
    (∀ op ∈ ops, ¬(op.1 = ns ∧ op.2.1 = nm)) →
    lookupGauge (runSets ops g) (ns, nm) = lookupGauge g (ns, nm) := by
  intro ops
  induction ops with
  | nil => intro g _; rfl
  | cons op rest ih =>
    intro g h
    have hstep : lookupGauge (SetVmiLaucherMemoryOverhead op.1 op.2.1 op.2.2 g)
        (ns, nm) = lookupGauge g (ns, nm) := by
      show (if ((op.1, op.2.1) : GoStr × GoStr) = (ns, nm) then some op.2.2
        else lookupGauge g (ns, nm)) = lookupGauge g (ns, nm)
      rw [if_neg]
      intro hc
      have h1 := Prod.mk.inj hc
      exact h op (List.mem_cons_self _ _) ⟨h1.1, h1.2⟩
    exact (ih _ (fun op2 ho2 => h op2 (List.mem_cons_of_mem _ ho2))).trans hstep

theorem runSets_append (a b : List (GoStr × GoStr × Int)) :
    ∀ g, runSets (a ++ b) g = runSets b (runSets a g) := by
  induction a with
  | nil => intro g; rfl
  | cons op rest ih => intro g; exact ih _

/-- A call missing either object is the quiet no-op of the source. -/
theorem applyObs_missing (c : ObsCall) (m : VolumeMap)
    (h : c.vmi = none ∨ c.vm = none) : applyObs c m = some m := by
  obtain ⟨vmio, vmo, now⟩ := c
  rcases h with h | h
  · simp only [] at h
    subst h
    rfl
  · simp only [] at h
    subst h
    cases vmio <;> rfl

/-- A trace of well-formed calls keeps the key-encoding invariant. -/
theorem runTrace_wfMap :
    ∀ (tr : List ObsCall) (m m2 : VolumeMap),
    (∀ c ∈ tr, wfCall c) → WfMap m → runTrace tr m = some m2 → WfMap m2 := by
  intro tr
  induction tr with
  | nil =>
    intro m m2 _ hwf hrun
    rw [← Option.some.inj hrun]
    exact hwf
  | cons c rest ih =>
    intro m m2 hcs hwf hrun
    unfold runTrace at hrun
    cases ha : applyObs c m with
    | none => rw [ha] at hrun; exact absurd hrun (by simp)
    | some m1 =>
      rw [ha] at hrun
      have hwf1 : WfMap m1 := by
        obtain ⟨vmio, vmo, now⟩ := c
        cases hv : vmio with
        | none =>
          have := applyObs_missing ⟨vmio, vmo, now⟩ m (Or.inl (by rw [hv]))
          rw [this] at ha
          rw [← Option.some.inj ha]
          exact hwf
        | some vmi =>
          cases hv2 : vmo with
          | none =>
            have := applyObs_missing ⟨vmio, vmo, now⟩ m (Or.inr (by rw [hv2]))
            rw [this] at ha
            rw [← Option.some.inj ha]
            exact hwf
          | some vm =>
            have hwfc : wfCall ⟨vmio, vmo, now⟩ := hcs _ (List.mem_cons_self _ _)
            rw [hv] at hwfc
            have hvmi : wfVMI vmi := hwfc
            rw [hv, hv2] at ha
            exact observe_wfMap vmi vm now m m1 ha hvmi hwf
      exact ih m1 m2 (fun c2 hc2 => hcs c2 (List.mem_cons_of_mem c hc2)) hwf1 hrun

/-- A hotpluggable claim-backed volume named `n` (sample data). -/
def hotplugVol (n : GoStr) : Volume :=
  { Name := n, PersistentVolumeClaim := some { Hotpluggable := true },
    DataVolume := none }

/-- A non-hotpluggable claim-backed volume named `n` (sample data). -/
def plainVol (n : GoStr) : Volume :=
  { Name := n, PersistentVolumeClaim := some { Hotpluggable := false },
    DataVolume := none }

/-- Sample live instance `a/b` carrying the hotplug volume `v`. -/
def vmiAB : VirtualMachineInstance :=
  { Namespace := ['a'], Name := ['b'], Spec := { Volumes := [hotplugVol ['v']] } }

/-- Sample live instance `c/d` with no volumes at all. -/
def vmiCD : VirtualMachineInstance :=
  { Namespace := ['c'], Name := ['d'], Spec := { Volumes := [] } }

/-- Sample machine whose desired template declares no volumes. -/
def vmEmptyT : VirtualMachine :=
  { Spec := { Template := { Spec := { Volumes := [] } } } }

/-- Sample machine whose desired template declares volume `v`. -/
def vmWithVT : VirtualMachine :=
  { Spec := { Template := { Spec := { Volumes := [plainVol ['v']] } } } }

/-- The tracker key of volume `v` of instance `a/b`. -/
def keyABV : GoStr := mkKey ['a'] ['b'] ['v']

/-- Claim C1, counterexample: the first call observes volume `v` of
instance `a/b` as hotplug-only and creates its record; the second call is
for the unrelated instance `c/d` and performs no reconciliation for `a/b`
per the claim's reading (no grace-window reclassification for `a/b`, and
`v` never left `a/b`'s live hotplug set), yet after it the record is gone:
the removal sweep compares volume names only and deletes records of other
instances. -/
theorem c1_counterexample :
    runTrace [{ vmi := some vmiAB, vm := some vmEmptyT, now := 0 }] [] =
      some [(keyABV, { timestamp := 0, confirmed := false })] ∧
    keyABV ∈ mapKeys [(keyABV, { timestamp := 0, confirmed := false })] ∧
    runTrace [{ vmi := some vmiAB, vm := some vmEmptyT, now := 0 },
      { vmi := some vmiCD, vm := some vmEmptyT, now := 1 }] [] = some [] ∧
    keyABV ∉ mapKeys ([] : VolumeMap) := by decide

/-- Claim C1, amended: after any finite sequence of observe calls starting
from the empty tracker, a VolumeKey has a record iff some past call
observed the volume as hotplug-eligible in that instance's live set while
absent from the desired template, and every subsequent call kept it —
where a call with both objects present keeps a record only when the
volume's NAME is in that call's own live hotplug set (whatever instance
the record belongs to) and the call does not grace-delete it (same
instance, name declared in the template, within 60 time units of the
stored first observation); calls missing either object keep everything.
In particular a record does not in general survive observe calls made for
other instances. -/
theorem c1_tracked_iff_created_and_kept
    (tr : List ObsCall) (m2 : VolumeMap) (ns nm vn : GoStr)
    (hns : noSlash ns) (hnm : noSlash nm) (hvn : noSlash vn)
    (hwf : ∀ c ∈ tr, wfCall c)
    (hrun : runTrace tr [] = some m2) :
    (mkKey ns nm vn ∈ mapKeys m2 ↔ everCreatedAndKept ns nm vn tr []) := by
  rw [runTrace_mem_char ns nm vn hns hnm hvn tr [] m2 hwf hrun]
  have hempty : mkKey ns nm vn ∉ mapKeys ([] : VolumeMap) := by simp [mapKeys]
  constructor
  · rintro (h | ⟨h, _⟩)
    · exact h
    · exact absurd h hempty
  · intro h
    exact Or.inl h

/-- Claim C1, witness: the amended characterisation evaluated on a
one-call trace that creates the record for `a/b/v`. -/
theorem c1_tracked_iff_created_and_kept_witness :
    (mkKey ['a'] ['b'] ['v'] ∈
        mapKeys [(keyABV, { timestamp := 0, confirmed := false })] ↔
      everCreatedAndKept ['a'] ['b'] ['v']
        [{ vmi := some vmiAB, vm := some vmEmptyT, now := 0 }] []) :=
  c1_tracked_iff_created_and_kept
    [{ vmi := some vmiAB, vm := some vmEmptyT, now := 0 }]
    [(keyABV, { timestamp := 0, confirmed := false })]
    ['a'] ['b'] ['v'] (by decide) (by decide) (by decide) (by decide) (by decide)

/-- Claim C2: on every full observe call, a surviving record tracked for
strictly more than 2 time units has `confirmed = true`, and `confirmed`
is monotonic — a record that was confirmed before the call and still
exists after it is still confirmed (no operation resets it to false). -/
theorem c2_confirm_threshold_and_monotonic
    (vmi : VirtualMachineInstance) (vm : VirtualMachine) (now : Int)
    (m m2 : VolumeMap) (k : GoStr) (st2 : EphemeralStatus)
    (hobs : UpdateEphemeralVolumeCount (some vmi) (some vm) now m = some m2)
    (hl2 : lookupKey m2 k = some st2) :
    (now - st2.timestamp > 2 → st2.confirmed = true) ∧
    (∀ st, lookupKey m k = some st → st.confirmed = true →
      st2.confirmed = true) := by
  obtain ⟨st1, hcase, hform⟩ := observe_lookup_rev vmi vm now m m2 k st2 hobs hl2
  constructor
  · intro h2
    by_cases hgt : now - st1.timestamp > 2
    · rw [hform, if_pos hgt]
    · rw [hform, if_neg hgt] at h2
      exact absurd h2 hgt
  · intro st hst hconf
    rcases hcase with hc | ⟨_, hnone⟩
    · have hst1 : st1 = st := by
        rw [hc] at hst
        exact Option.some.inj hst
      subst hst1
      by_cases hgt : now - st1.timestamp > 2
      · rw [hform, if_pos hgt]
      · rw [hform, if_neg hgt]
        exact hconf
    · rw [hnone] at hst
      exact absurd hst (by simp)

/-- Claim C2, witness: a record stamped 0 observed again at time 5 is
confirmed, and confirmation is monotonic on that concrete call. -/
theorem c2_confirm_threshold_and_monotonic_witness :
    ((5 : Int) - ({ timestamp := 0, confirmed := true } :
        EphemeralStatus).timestamp > 2 →
      ({ timestamp := 0, confirmed := true } :
        EphemeralStatus).confirmed = true) ∧
    (∀ st, lookupKey [(keyABV, { timestamp := 0, confirmed := false })]
        keyABV = some st → st.confirmed = true →
      ({ timestamp := 0, confirmed := true } :
        EphemeralStatus).confirmed = true) :=
  c2_confirm_threshold_and_monotonic vmiAB vmEmptyT 5
    [(keyABV, { timestamp := 0, confirmed := false })]
    [(keyABV, { timestamp := 0, confirmed := true })]
    keyABV { timestamp := 0, confirmed := true } (by decide) (by decide)

/-- Claim C3, counterexample, refuting both halves of the claim on the
code. First: for a record first observed at 0 whose volume is declared in
the template and re-observed at 61 (grace window elapsed), the claim says
the record is left as-is, but the call promotes it to `confirmed = true`
(the confirmation step still runs). Second: after a grace-window deletion
(call at time 1, within 60 of first observation at 0) the claim says the
volume never appears in collection output at any later time, but if later
calls observe it hotplug-only again a fresh record is created, confirmed,
and the collection callback emits a sample for the same volume. -/
theorem c3_counterexample :
    (((61 : Int) - 0 > 60) ∧
      UpdateEphemeralVolumeCount (some vmiAB) (some vmWithVT) 61
        [(keyABV, { timestamp := 0, confirmed := false })] =
        some [(keyABV, { timestamp := 0, confirmed := true })]) ∧
    (((1 : Int) - 0 ≤ 60) ∧
      runTrace [
        { vmi := some vmiAB, vm := some vmEmptyT, now := 0 },
        { vmi := some vmiAB, vm := some vmWithVT, now := 1 },
        { vmi := some vmiAB, vm := some vmEmptyT, now := 2 },
        { vmi := some vmiAB, vm := some vmEmptyT, now := 10 }] [] =
        some [(keyABV, { timestamp := 2, confirmed := true })] ∧
      EphemeralVolumeMetricsCallback
        [(keyABV, { timestamp := 2, confirmed := true })] =
        some [{ labels := [['a'], ['b'], ['v']], value := 1 }]) := by decide

/-- Claim C3, amended: when an observe call finds a tracked hotplug volume
now present in the desired template, then (i) if `now - firstObservedAt`
is within the 60-unit grace window the record is deleted, and the volume's
label triple never appears in collection output after any further calls
none of which observes the volume hotplug-only-and-undeclared again; and
(ii) if the grace window has elapsed the record is not deleted and its
timestamp is unchanged, but the same call's confirmation step sets
`confirmed = true` (here `now - firstObservedAt > 60 > 2`). -/
theorem c3_grace_window_amended
    (vmi : VirtualMachineInstance) (vm : VirtualMachine) (now : Int)
    (m m2 : VolumeMap) (ns nm vn : GoStr) (st : EphemeralStatus)
    (hvmi : wfVMI vmi) (hns : noSlash ns) (hnm : noSlash nm) (hvn : noSlash vn)
    (hwm : WfMap m)
    (hnsEq : ns = vmi.Namespace) (hnmEq : nm = vmi.Name)
    (hH : vn ∈ hotplugNames vmi) (hT : vn ∈ templateNames vm)
    (hl : lookupKey m (mkKey ns nm vn) = some st)
    (hobs : UpdateEphemeralVolumeCount (some vmi) (some vm) now m = some m2) :
    (now - st.timestamp ≤ 60 →
      lookupKey m2 (mkKey ns nm vn) = none ∧
      (∀ pre mp rs, (∀ c ∈ pre, wfCall c ∧ ¬createsRecord c ns nm vn) →
        runTrace pre m2 = some mp →
        EphemeralVolumeMetricsCallback mp = some rs →
        ∀ r ∈ rs, r.labels ≠ [ns, nm, vn])) ∧
    (¬(now - st.timestamp ≤ 60) →
      lookupKey m2 (mkKey ns nm vn) =
        some { timestamp := st.timestamp, confirmed := true }) := by
  obtain ⟨part1, part2, _⟩ := observe_lookup_declared vmi vm now m m2 ns nm vn
    hns hnm hvn hnsEq hnmEq hobs hH hT
  constructor
  · intro h60
    have hdel := part1 st hl h60
    refine ⟨hdel, ?_⟩
    intro pre mp rs hpre hrun hcb r hr
    have hwm2 : WfMap m2 := observe_wfMap vmi vm now m m2 hobs hvmi hwm
    have hwmp : WfMap mp :=
      runTrace_wfMap pre m2 mp (fun c hc => (hpre c hc).1) hwm2 hrun
    have hmem : mkKey ns nm vn ∉ mapKeys mp := by
      rw [runTrace_mem_char ns nm vn hns hnm hvn pre m2 mp
        (fun c hc => (hpre c hc).1) hrun]
      rintro (hev | ⟨hmm, _⟩)
      · obtain ⟨c, hc, hcr⟩ :=
          everCreatedAndKept_exists_creator ns nm vn pre m2 hev
        exact (hpre c hc).2 hcr
      · rw [mem_mapKeys_iff, hdel] at hmm
        exact absurd hmm (by simp)
    exact callback_no_label mp rs hwmp hcb ns nm vn hmem r hr
  · intro h60
    exact part2 st hl h60

/-- Claim C3, witness: the amended statement evaluated on a record stamped
0, declared in the template, re-observed at time 1 (inside the grace
window): the record is deleted and no later non-recreating trace can make
the collection emit its labels. -/
theorem c3_grace_window_amended_witness :
    ((1 : Int) - 0 ≤ 60 →
      lookupKey ([] : VolumeMap) (mkKey ['a'] ['b'] ['v']) = none ∧
      (∀ pre mp rs,
        (∀ c ∈ pre, wfCall c ∧ ¬createsRecord c ['a'] ['b'] ['v']) →
        runTrace pre ([] : VolumeMap) = some mp →
        EphemeralVolumeMetricsCallback mp = some rs →
        ∀ r ∈ rs, r.labels ≠ [['a'], ['b'], ['v']])) ∧
    (¬((1 : Int) - 0 ≤ 60) →
      lookupKey ([] : VolumeMap) (mkKey ['a'] ['b'] ['v']) =
        some { timestamp := 0, confirmed := true }) :=
  c3_grace_window_amended vmiAB vmWithVT 1
    [(keyABV, { timestamp := 0, confirmed := false })] []
    ['a'] ['b'] ['v'] { timestamp := 0, confirmed := false }
    (by decide) (by decide) (by decide) (by decide)
    (by
      intro e he
      rcases List.mem_singleton.mp he with rfl
      exact ⟨['a'], ['b'], ['v'], by decide, by decide, by decide, rfl⟩)
    (by decide) (by decide) (by decide) (by decide) (by decide) (by decide)

/-- Claim C4, counterexample: volume `v` of instance `a/b` is still
hotplug-only and undeclared and already has a record stamped 0 and
unconfirmed; per the claim the observe call at time 3 must leave the
record entirely unchanged, but the code flips `confirmed` to true in the
confirmation step. -/
theorem c4_counterexample :
    (['v'] : GoStr) ∈ hotplugNames vmiAB ∧
    (['v'] : GoStr) ∉ templateNames vmEmptyT ∧
    UpdateEphemeralVolumeCount (some vmiAB) (some vmEmptyT) 3
      [(keyABV, { timestamp := 0, confirmed := false })] =
      some [(keyABV, { timestamp := 0, confirmed := true })] ∧
    ({ timestamp := 0, confirmed := true } : EphemeralStatus) ≠
      { timestamp := 0, confirmed := false } := by decide

/-- Claim C4, amended: an observe call that finds an existing record for a
volume still hotplug-only and undeclared never changes the record's
`firstObservedAt` timestamp (the timer is never reset, so confirmation
time is measured from first detection); the only field it may change is
`confirmed`, which is set to true exactly when `now - firstObservedAt`
exceeds the confirmation threshold. -/
theorem c4_timer_never_reset_amended
    (vmi : VirtualMachineInstance) (vm : VirtualMachine) (now : Int)
    (m m2 : VolumeMap) (ns nm vn : GoStr) (st : EphemeralStatus)
    (hns : noSlash ns) (hnm : noSlash nm) (hvn : noSlash vn)
    (hnsEq : ns = vmi.Namespace) (hnmEq : nm = vmi.Name)
    (hH : vn ∈ hotplugNames vmi) (hT : vn ∉ templateNames vm)
    (hl : lookupKey m (mkKey ns nm vn) = some st)
    (hobs : UpdateEphemeralVolumeCount (some vmi) (some vm) now m = some m2) :
    ∃ st2, lookupKey m2 (mkKey ns nm vn) = some st2 ∧
      st2.timestamp = st.timestamp ∧
      st2.confirmed = (if now - st.timestamp > 2 then true else st.confirmed) := by
  obtain ⟨part1, _⟩ := observe_lookup_undeclared vmi vm now m m2 ns nm vn
    hns hnm hvn hnsEq hnmEq hobs hH hT
  refine ⟨_, part1 st hl, ?_, ?_⟩
  · by_cases hgt : now - st.timestamp > 2
    · rw [if_pos hgt]
    · rw [if_neg hgt]
  · by_cases hgt : now - st.timestamp > 2
    · rw [if_pos hgt, if_pos hgt]
    · rw [if_neg hgt, if_neg hgt]

/-- Claim C4, witness: the amended statement at a concrete re-observation
(record stamped 0, call at time 3): the timestamp is kept and only the
confirmation flag flips. -/
theorem c4_timer_never_reset_amended_witness :
    ∃ st2, lookupKey [(keyABV, { timestamp := 0, confirmed := true })]
        (mkKey ['a'] ['b'] ['v']) = some st2 ∧
      st2.timestamp = ({ timestamp := 0, confirmed := false } :
        EphemeralStatus).timestamp ∧
      st2.confirmed = (if (3 : Int) - 0 > 2 then true else false) :=
  c4_timer_never_reset_amended vmiAB vmEmptyT 3
    [(keyABV, { timestamp := 0, confirmed := false })]
    [(keyABV, { timestamp := 0, confirmed := true })]
    ['a'] ['b'] ['v'] { timestamp := 0, confirmed := false }
    (by decide) (by decide) (by decide) (by decide) (by decide)
    (by decide) (by decide) (by decide) (by decide)

/-- Claim C5: on a tracker map whose keys all parse (which holds for every
map the program can build, since every inserted key is an assembled
three-component key), the collection callback succeeds and returns exactly
one sample per confirmed record — value fixed at 1, labels the parsed key
components, order immaterial (stated via length plus both containment
directions); unconfirmed records are never emitted; the result may be
empty. The callback is a pure function of the map, so it leaves the
tracker unchanged by construction. -/
theorem c5_collect_confirmed_samples (m : VolumeMap) (hp : KeysParse m) :
    ∃ rs, EphemeralVolumeMetricsCallback m = some rs ∧
      rs.length = (m.filter (fun e => e.2.confirmed)).length ∧
      (∀ r ∈ rs, r.value = 1) ∧
      (∀ r ∈ rs, ∃ k st p1 p2 p3, (k, st) ∈ m ∧ st.confirmed = true ∧
        parseVolumeKey k = some (p1, p2, p3) ∧
        r = { labels := [p1, p2, p3], value := 1 }) ∧
      (∀ k st, (k, st) ∈ m → st.confirmed = true →
        ∀ p1 p2 p3, parseVolumeKey k = some (p1, p2, p3) →
        ({ labels := [p1, p2, p3], value := 1 } : CollectorResult) ∈ rs) := by
  obtain ⟨rs, hcb⟩ := Option.isSome_iff_exists.mp (callback_isSome m hp)
  refine ⟨rs, hcb, callback_length m rs hcb, ?_, callback_mem m rs hcb,
    callback_complete m rs hcb⟩
  intro r hr
  obtain ⟨k, st, p1, p2, p3, _, _, _, hform⟩ := callback_mem m rs hcb r hr
  rw [hform]

/-- Claim C5, witness: the collection characterisation on a two-record map
with one confirmed and one unconfirmed record. -/
theorem c5_collect_confirmed_samples_witness :
    ∃ rs, EphemeralVolumeMetricsCallback
        [(keyABV, { timestamp := 0, confirmed := true }),
          (mkKey ['a'] ['b'] ['w'], { timestamp := 0, confirmed := false })] =
        some rs ∧
      rs.length = (([(keyABV, { timestamp := 0, confirmed := true }),
        (mkKey ['a'] ['b'] ['w'], { timestamp := 0, confirmed := false })] :
          VolumeMap).filter (fun e => e.2.confirmed)).length ∧
      (∀ r ∈ rs, r.value = 1) ∧
      (∀ r ∈ rs, ∃ k st p1 p2 p3,
        (k, st) ∈ ([(keyABV, { timestamp := 0, confirmed := true }),
          (mkKey ['a'] ['b'] ['w'], { timestamp := 0, confirmed := false })] :
            VolumeMap) ∧ st.confirmed = true ∧
        parseVolumeKey k = some (p1, p2, p3) ∧
        r = { labels := [p1, p2, p3], value := 1 }) ∧
      (∀ k st,
        (k, st) ∈ ([(keyABV, { timestamp := 0, confirmed := true }),
          (mkKey ['a'] ['b'] ['w'], { timestamp := 0, confirmed := false })] :
            VolumeMap) → st.confirmed = true →
        ∀ p1 p2 p3, parseVolumeKey k = some (p1, p2, p3) →
        ({ labels := [p1, p2, p3], value := 1 } : CollectorResult) ∈ rs) :=
  c5_collect_confirmed_samples
    [(keyABV, { timestamp := 0, confirmed := true }),
      (mkKey ['a'] ['b'] ['w'], { timestamp := 0, confirmed := false })]
    (by decide)

/-- Claim C6: for the launcher memory-overhead gauge, a set immediately
followed by a get for the same label pair returns exactly the set value,
for every non-negative value — the set is an unconditional overwrite with
no validation (the gauge itself is modelled from the spec, since the
gauge-vector library is external to this repository). -/
theorem c6_memory_overhead_roundtrip (ns nm : GoStr) (x : Int)
    (g : MemoryOverheadGauge) (_hx : 0 ≤ x) :
    GetVmiLaucherMemoryOverhead ns nm (SetVmiLaucherMemoryOverhead ns nm x g) =
      Except.ok x := by
  have h1 : lookupGauge (SetVmiLaucherMemoryOverhead ns nm x g) (ns, nm) =
      some x := by
    show (if ((ns, nm) : GoStr × GoStr) = (ns, nm) then some x
      else lookupGauge g (ns, nm)) = some x
    rw [if_pos rfl]
  unfold GetVmiLaucherMemoryOverhead
  rw [h1]

/-- Claim C6, witness: the round trip at a concrete label pair and value. -/
theorem c6_memory_overhead_roundtrip_witness :
    GetVmiLaucherMemoryOverhead ['a'] ['b']
      (SetVmiLaucherMemoryOverhead ['a'] ['b'] 7 []) = Except.ok 7 :=
  c6_memory_overhead_roundtrip ['a'] ['b'] 7 [] (by decide)

/-- Claim C7: reading the memory-overhead gauge for a label pair that no
set operation ever touched fails with the not-recorded condition
(distinguishing never-measured from zero); otherwise the read returns the
value of the last set for that pair (gauge modelled from the spec — the
gauge-vector library is external to this repository). -/
theorem c7_get_unset_not_recorded :
    (∀ (ops : List (GoStr × GoStr × Int)) (ns nm : GoStr),
      (∀ op ∈ ops, ¬(op.1 = ns ∧ op.2.1 = nm)) →
      GetVmiLaucherMemoryOverhead ns nm (runSets ops []) =
        Except.error GaugeReadError.notRecorded) ∧
    (∀ (pre post : List (GoStr × GoStr × Int)) (op : GoStr × GoStr × Int),
      (∀ op2 ∈ post, ¬(op2.1 = op.1 ∧ op2.2.1 = op.2.1)) →
      GetVmiLaucherMemoryOverhead op.1 op.2.1 (runSets (pre ++ op :: post) []) =
        Except.ok op.2.2) := by
  constructor
  · intro ops ns nm h
    have h1 : lookupGauge (runSets ops []) (ns, nm) = none :=
      (lookupGauge_runSets_untouched ns nm ops [] h).trans rfl
    unfold GetVmiLaucherMemoryOverhead
    rw [h1]
  · intro pre post op h
    have h1 : runSets (pre ++ op :: post) [] =
        runSets post (SetVmiLaucherMemoryOverhead op.1 op.2.1 op.2.2
          (runSets pre [])) := by
      rw [runSets_append]
      rfl
    have h2 : lookupGauge (SetVmiLaucherMemoryOverhead op.1 op.2.1 op.2.2
        (runSets pre [])) (op.1, op.2.1) = some op.2.2 := by
      show (if ((op.1, op.2.1) : GoStr × GoStr) = (op.1, op.2.1) then
        some op.2.2 else _) = some op.2.2
      rw [if_pos rfl]
    have h3 := (lookupGauge_runSets_untouched op.1 op.2.1 post _ h).trans h2
    unfold GetVmiLaucherMemoryOverhead
    rw [h1, h3]

/-- Claim C7, witness: a never-set pair reads as not-recorded, and a pair
set twice reads back its last value through later unrelated sets. -/
theorem c7_get_unset_not_recorded_witness :
    GetVmiLaucherMemoryOverhead ['a'] ['b'] (runSets [(['c'], ['d'], 5)] []) =
      Except.error GaugeReadError.notRecorded ∧
    GetVmiLaucherMemoryOverhead ['a'] ['b']
      (runSets ([(['a'], ['b'], 3)] ++ (['a'], ['b'], 9) :: [(['c'], ['d'], 5)]) []) =
      Except.ok 9 :=
  ⟨c7_get_unset_not_recorded.1 [(['c'], ['d'], 5)] ['a'] ['b'] (by decide),
    c7_get_unset_not_recorded.2 [(['a'], ['b'], 3)] [(['c'], ['d'], 5)]
      (['a'], ['b'], 9) (by decide)⟩

/-- Claim C9: for delimiter-free namespace, instance-name and volume-name
components, parsing the composite key assembled by string concatenation
yields back exactly the three original components. -/
theorem c9_volume_key_roundtrip (ns nm vn : GoStr)
    (hns : noSlash ns) (hnm : noSlash nm) (hvn : noSlash vn) :
    parseVolumeKey (mkKey ns nm vn) = some (ns, nm, vn) :=
  parseVolumeKey_mkKey ns nm vn hns hnm hvn

/-- Claim C9, witness: the round trip on the concrete key `a/b/v`. -/
theorem c9_volume_key_roundtrip_witness :
    parseVolumeKey (mkKey ['a'] ['b'] ['v']) = some (['a'], ['b'], ['v']) :=
  c9_volume_key_roundtrip ['a'] ['b'] ['v'] (by decide) (by decide) (by decide)

/-- Claim C10, counterexample: the key `a/b/c/d` splits into four
components, not exactly three, yet `parseVolumeKey` does not fail on it —
it silently returns the truncated triple `(a, b, c)`, a silently wrong
result rather than the assertion failure the claim requires for every
malformed key. -/
theorem c10_counterexample :
    (goSplit '/' ['a', '/', 'b', '/', 'c', '/', 'd']).length = 4 ∧
    parseVolumeKey ['a', '/', 'b', '/', 'c', '/', 'd'] =
      some (['a'], ['b'], ['c']) := by decide

/-- Claim C10, amended: only a stored key with fewer than three delimited
components makes `parseVolumeKey` fail (the out-of-range index panic of
the source — never a silently swallowed error); a key with three or more
components is decomposed into its first three components, silently
discarding any extra components. -/
theorem c10_parse_malformed_amended :
    (∀ key : GoStr, (goSplit '/' key).length < 3 → parseVolumeKey key = none) ∧
    (∀ (key p1 p2 p3 : GoStr) (rest : List GoStr),
      goSplit '/' key = p1 :: p2 :: p3 :: rest →
      parseVolumeKey key = some (p1, p2, p3)) := by
  constructor
  · intro key hlen
    unfold parseVolumeKey
    cases hsp : goSplit '/' key with
    | nil => rfl
    | cons p0 t0 =>
      cases t0 with
      | nil => rfl
      | cons p1 t1 =>
        cases t1 with
        | nil => rfl
        | cons p2 t2 =>
          rw [hsp] at hlen
          simp only [List.length_cons] at hlen
          omega
  · intro key p1 p2 p3 rest hsp
    unfold parseVolumeKey
    rw [hsp]

/-- Claim C10, witness: a two-component key fails to parse (the panic),
and the four-component key is truncated to its first three components. -/
theorem c10_parse_malformed_amended_witness :
    parseVolumeKey ['a', '/', 'b'] = none ∧
    parseVolumeKey ['a', '/', 'b', '/', 'c', '/', 'd'] =
      some (['a'], ['b'], ['c']) :=
  ⟨c10_parse_malformed_amended.1 ['a', '/', 'b'] (by decide),
    c10_parse_malformed_amended.2 ['a', '/', 'b', '/', 'c', '/', 'd']
      ['a'] ['b'] ['c'] [['d']] (by decide)⟩

end VirtController
